import Mathlib

/-!
jfcrypt: a shallow embedding and its verified properties.

The Go program `jfcrypt` (files `main.go`, `crypto.go`, `encrypt.go`,
`decrypt.go`, `passphrase.go`, `types.go`) is embedded function by function.

* Byte slices are lists of naturals (`Bytes`); Go's `byte(x)` is `x % 256`.
* Go strings are Lean strings.
* Libraries outside the repository (Argon2, Tink, `encoding/json`, the terminal,
  the random source, the standard streams) are fields of a `World` record: the
  program is a function of what those calls answer.
-/

namespace Jfcrypt

/-- A Go byte slice's contents. -/
abbrev Bytes := List Nat

deriving instance DecidableEq for Except

/-- Go's conversion `byte(x)`. -/
def toByte (x : Nat) : Nat := x % 256

/-! ## crypto.go -/

/-- The loop of `encodeVarint`: while `v >= 0x80` emit `byte(v)|0x80` and shift
`v` right by seven bits, then emit `byte(v)`. The first argument bounds the number
of iterations; `v` itself is enough, as each iteration makes `v` smaller. -/
def encodeVarintLoop : Nat → Nat → Bytes
  | 0, v => [toByte v]
  | fuel + 1, v =>
    if 0x80 ≤ v then (toByte v ||| 0x80) :: encodeVarintLoop fuel (v >>> 7) else [toByte v]

/-- `encodeVarint` of crypto.go. -/
def encodeVarint (v : Nat) : Bytes := encodeVarintLoop v v

/-- The params submessage assembled by `buildAesGcmHkdfStreamingKeyValue`. -/
def buildParams : Bytes :=
  let segmentSize := 1048576
  let derivedKeySize := 32
  let hkdfHashType := 3
  let params : Bytes := []
  let params := params ++ [0x08]
  let params := params ++ encodeVarint segmentSize
  let params := params ++ [0x10]
  let params := params ++ encodeVarint derivedKeySize
  let params := params ++ [0x18]
  let params := params ++ encodeVarint hkdfHashType
  params

/-- `buildAesGcmHkdfStreamingKeyValue` of crypto.go. -/
def buildAesGcmHkdfStreamingKeyValue (key : Bytes) : Bytes :=
  let params := buildParams
  let result : Bytes := []
  let result := result ++ [0x08]
  let result := result ++ [0x00]
  let result := result ++ [0x12]
  let result := result ++ [toByte params.length]
  let result := result ++ params
  let result := result ++ [0x1a]
  let result := result ++ [toByte key.length]
  let result := result ++ key
  result

/-! ### The protobuf wire format (reference decoder) -/

/-- Base-128 varint decoding: seven payload bits per byte, least significant
group first, the top bit set on every byte but the last. -/
def decodeVarint : Bytes → Option (Nat × Bytes)
  | [] => none
  | b :: rest =>
    if b < 0x80 then some (b, rest)
    else
      match decodeVarint rest with
      | some (v, r) => some (b % 0x80 + 0x80 * v, r)
      | none => none

/-- A decoded field value: wire type 0 (varint) or wire type 2 (length-delimited). -/
inductive WireValue where
  | varint (v : Nat)
  | bytes (b : Bytes)
  deriving DecidableEq, Repr

/-- Split a message into its (field number, value) pairs; `fuel` bounds the
number of fields. -/
def decodeFields : Nat → Bytes → Option (List (Nat × WireValue))
  | _, [] => some []
  | 0, _ :: _ => none
  | fuel + 1, b :: bs =>
    match decodeVarint (b :: bs) with
    | none => none
    | some (tag, rest) =>
      if tag % 8 = 0 then
        match decodeVarint rest with
        | none => none
        | some (v, rest2) =>
          match decodeFields fuel rest2 with
          | none => none
          | some fs => some ((tag / 8, WireValue.varint v) :: fs)
      else if tag % 8 = 2 then
        match decodeVarint rest with
        | none => none
        | some (len, rest2) =>
          if rest2.length < len then none
          else
            match decodeFields fuel (rest2.drop len) with
            | none => none
            | some fs => some ((tag / 8, WireValue.bytes (rest2.take len)) :: fs)
      else none

/-- The varint value of field `n` (the last occurrence wins), or the proto3
default 0. -/
def fieldVarint (n : Nat) (fs : List (Nat × WireValue)) : Nat :=
  fs.foldl (fun acc f =>
    match f with
    | (m, WireValue.varint v) => if m = n then v else acc
    | (_, WireValue.bytes _) => acc) 0

/-- The length-delimited value of field `n` (the last occurrence wins), if any. -/
def fieldBytes (n : Nat) (fs : List (Nat × WireValue)) : Option Bytes :=
  fs.foldl (fun acc f =>
    match f with
    | (m, WireValue.bytes b) => if m = n then some b else acc
    | (_, WireValue.varint _) => acc) none

/-- Message `AesGcmHkdfStreamingParams` of Tink's aes_gcm_hkdf_streaming.proto. -/
structure AesGcmHkdfStreamingParams where
  ciphertext_segment_size : Nat
  derived_key_size : Nat
  hkdf_hash_type : Nat
  deriving DecidableEq, Repr

/-- Message `AesGcmHkdfStreamingKey` of Tink's aes_gcm_hkdf_streaming.proto. -/
structure AesGcmHkdfStreamingKey where
  version : Nat
  params : Option AesGcmHkdfStreamingParams
  key_value : Bytes
  deriving DecidableEq, Repr

/-- Decode an `AesGcmHkdfStreamingParams` message. -/
def decodeParams (b : Bytes) : Option AesGcmHkdfStreamingParams :=
  match decodeFields b.length b with
  | none => none
  | some fs => some ⟨fieldVarint 1 fs, fieldVarint 2 fs, fieldVarint 3 fs⟩

/-- Decode an `AesGcmHkdfStreamingKey` message. -/
def decodeKey (b : Bytes) : Option AesGcmHkdfStreamingKey :=
  match decodeFields b.length b with
  | none => none
  | some fs =>
    match fieldBytes 2 fs with
    | none => some ⟨fieldVarint 1 fs, none, (fieldBytes 3 fs).getD []⟩
    | some pb =>
      match decodeParams pb with
      | none => none
      | some p => some ⟨fieldVarint 1 fs, some p, (fieldBytes 3 fs).getD []⟩

/-! ## decrypt.go: the newline-trimming reader -/

/-- The loop of `newlineTrimmingReader.Read`:
`for n > 0 && (p[n-1] == '\n' || p[n-1] == '\r') { n-- }`. -/
def trimLoop (p : Bytes) : Nat → Nat
  | 0 => 0
  | n + 1 => if p.getD n 0 = 10 ∨ p.getD n 0 = 13 then trimLoop p n else n + 1

/-- `newlineTrimmingReader.Read`: `inner` is the wrapped reader's `Read`, which
from the buffer `p` yields the buffer after the read, the count and the error. -/
def newlineTrimmingReader.Read (inner : Bytes → Bytes × Nat × Option String) (p : Bytes) :
    Bytes × Nat × Option String :=
  let (p, n, err) := inner p
  let n := if 0 < n then trimLoop p n else n
  (p, n, err)

/-- A byte is LF or CR. -/
def isNewline (b : Nat) : Bool := b == 10 || b == 13

/-! ## types.go -/

/-- `KDFParams` of types.go: the Argon2id parameters of the header. -/
structure KDFParams where
  Algorithm : String
  Salt : String
  Time : Nat
  Memory : Nat
  Threads : Nat
  KeyLen : Nat
  deriving DecidableEq, Repr

/-- `SealedHeader` of types.go: the JSON metadata of the first line. -/
structure SealedHeader where
  Version : String
  Algorithm : String
  Format : String
  KDF : KDFParams
  deriving DecidableEq, Repr

/-- `EncryptOptions` of main.go. -/
structure EncryptOptions where
  UseBase64 : Bool
  Argon2Memory : Nat
  Argon2Time : Nat
  deriving DecidableEq, Repr

/-- `Version` of main.go. -/
def Version : String := "1.0.0"

/-- `Argon2Threads` of crypto.go. -/
def Argon2Threads : Nat := 4

/-- `Argon2KeyLen` of crypto.go. -/
def Argon2KeyLen : Nat := 32

/-- `SaltLen` of crypto.go. -/
def SaltLen : Nat := 16

/-! ## encoding/base64, standard encoding (reference model) -/

/-- The standard base64 alphabet. -/
def encodeStd : List Char :=
  "ABCDEFGHIJKLMNOPQRSTUVWXYZabcdefghijklmnopqrstuvwxyz0123456789+/".toList

/-- The character of a six-bit value. -/
def base64Char (i : Nat) : Char := encodeStd.getD i 'A'

/-- The six-bit value of a character of the alphabet. -/
def base64Index (c : Char) : Option Nat :=
  if encodeStd.indexOf c < 64 then some (encodeStd.indexOf c) else none

/-- `base64.StdEncoding.EncodeToString`, as characters: three bytes give four
characters, a last group of one or two bytes is padded with `=`. -/
def base64Encode : Bytes → List Char
  | [] => []
  | [a] => [base64Char (a / 4), base64Char (a % 4 * 16), '=', '=']
  | [a, b] => [base64Char (a / 4), base64Char (a % 4 * 16 + b / 16), base64Char (b % 16 * 4), '=']
  | a :: b :: c :: rest =>
    base64Char (a / 4) :: base64Char (a % 4 * 16 + b / 16) :: base64Char (b % 16 * 4 + c / 64) ::
      base64Char (c % 64) :: base64Encode rest

/-- Decoding of the four-character groups: padding is accepted in the last group
only. -/
def base64DecodeQuanta : List Char → Option Bytes
  | [] => some []
  | a :: b :: c :: d :: rest =>
    match base64Index a, base64Index b with
    | some x, some y =>
      if rest = [] ∧ c = '=' ∧ d = '=' then some [x * 4 + y / 16]
      else
        match base64Index c with
        | none => none
        | some z =>
          if rest = [] ∧ d = '=' then some [x * 4 + y / 16, y % 16 * 16 + z / 4]
          else
            match base64Index d with
            | none => none
            | some w =>
              match base64DecodeQuanta rest with
              | none => none
              | some bs => some ((x * 4 + y / 16) :: (y % 16 * 16 + z / 4) :: (z % 4 * 64 + w) :: bs)
    | _, _ => none
  | _ => none

/-- `base64.StdEncoding.DecodeString`, on characters: CR and LF are skipped, the
rest is decoded by groups. -/
def base64Decode (s : List Char) : Except String Bytes :=
  match base64DecodeQuanta (s.filter (fun c => c.toNat != 13 && c.toNat != 10)) with
  | none => Except.error "illegal base64 data"
  | some bs => Except.ok bs

/-! ## The environment and the machine state -/

/-- The arguments of one call of `deriveKey`, that is of `argon2.IDKey`. -/
structure DeriveCall where
  passphrase : Bytes
  salt : Bytes
  time : Nat
  memory : Nat
  threads : Nat
  keyLen : Nat
  deriving DecidableEq, Repr

/-- The reader `decrypt` hands to the decrypting reader. -/
inductive ReaderKind where
  | base64Trimmed
  | raw
  deriving DecidableEq, Repr

/-- What the program does that the properties speak of. -/
inductive Event where
  /-- `getPassphrase` or `getPassphraseWithConfirm` was entered with this prompt, or
  the confirmation entry is about to be read. -/
  | askPassphrase (prompt : String)
  /-- A buffer holding a secret was obtained at this address with these contents. -/
  | secret (addr : Nat) (content : Bytes)
  /-- `argon2.IDKey` was called with these arguments. -/
  | argon2 (call : DeriveCall)
  /-- These bytes were written with `os.Stdout.Write`. -/
  | stdout (b : Bytes)
  /-- `decrypt` chose this reader for the ciphertext. -/
  | inputReader (kind : ReaderKind)
  /-- `printUsage` was called. -/
  | usage
  /-- The version line was printed. -/
  | version
  deriving DecidableEq, Repr

/-- The answers of everything outside the repository during one run. -/
structure World where
  /-- `os.Args`. -/
  args : List String
  /-- `os.Getenv(PassphraseEnvVar)` as bytes, empty when unset. -/
  getenvPassphrase : Bytes
  /-- What the terminal yields at the n-th `readPassword`. -/
  terminal : Nat → Except String Bytes
  /-- `rand.Read` on a buffer of the given length. -/
  randRead : Nat → Except String Bytes
  /-- `argon2.IDKey`. -/
  argon2IDKey : Bytes → Bytes → Nat → Nat → Nat → Nat → Bytes
  /-- The error of Tink's `insecurecleartextkeyset.Read` on the keyset with this key value. -/
  keysetRead : List Char → Option String
  /-- The error of `streamingaead.New`. -/
  streamingaeadNew : Option String
  /-- `json.Marshal` on a header. -/
  jsonMarshal : SealedHeader → Except String Bytes
  /-- `json.Unmarshal` into a header. -/
  jsonUnmarshal : Bytes → Except String SealedHeader
  /-- The bytes on standard input. -/
  stdin : Bytes
  /-- The error of the n-th `os.Stdout.Write`. -/
  stdoutWrite : Nat → Option String
  /-- The error of `NewEncryptingWriter`. -/
  newEncryptingWriter : Option String
  /-- The error of `NewDecryptingReader`. -/
  newDecryptingReader : Option String
  /-- The error of `io.Copy`. -/
  copy : Option String
  /-- The error of closing the encrypting writer. -/
  encWriterClose : Option String
  /-- The error of closing the output writer. -/
  outputWriterClose : Option String
  /-- The error of the final newline write. -/
  finalNewline : Option String
  /-- The error of `Flush`. -/
  flush : Option String

/-- The byte buffers holding secrets, by address, and the events so far. -/
structure State where
  heap : List Bytes
  trace : List Event
  deriving DecidableEq, Repr

/-- The state at program start. -/
def State.init : State := ⟨[], []⟩

/-- Record an event. -/
def State.emit (s : State) (e : Event) : State := { s with trace := s.trace ++ [e] }

/-- A fresh secret buffer with the given contents; its address is returned. -/
def State.alloc (s : State) (b : Bytes) : State × Nat :=
  ({ heap := s.heap ++ [b], trace := s.trace ++ [Event.secret s.heap.length b] }, s.heap.length)

/-- The contents of a buffer. -/
def State.load (s : State) (a : Nat) : Bytes := s.heap.getD a []

/-! ## passphrase.go -/

/-- The loop `for i := range b { b[i] = 0 }` of `zeroBytes`. -/
def zeroSlice (b : Bytes) : Bytes :=
  (List.range b.length).foldl (fun b i => b.set i 0) b

/-- `zeroBytes` of passphrase.go, on the buffer at an address. -/
def zeroBytes (s : State) (a : Nat) : State :=
  { s with heap := s.heap.set a (zeroSlice (s.load a)) }

/-- `readPassword` of passphrase.go: the n-th entry at the terminal, in a fresh
buffer. -/
def readPassword (w : World) (n : Nat) (s : State) : State × Except String Nat :=
  match w.terminal n with
  | Except.error err => (s, Except.error err)
  | Except.ok b => ((s.alloc b).1, Except.ok (s.alloc b).2)

/-- `getPassphrase` of passphrase.go. -/
def getPassphrase (w : World) (prompt : String) (s : State) : State × Except String Nat :=
  let s := s.emit (Event.askPassphrase prompt)
  if w.getenvPassphrase ≠ [] then ((s.alloc w.getenvPassphrase).1, Except.ok (s.alloc w.getenvPassphrase).2)
  else
    match readPassword w 0 s with
    | (s, Except.error err) => (s, Except.error err)
    | (s, Except.ok passphrase) => (s, Except.ok passphrase)

/-- `getPassphraseWithConfirm` of passphrase.go. -/
def getPassphraseWithConfirm (w : World) (prompt confirmPrompt : String) (s : State) :
    State × Except String Nat :=
  let s := s.emit (Event.askPassphrase prompt)
  if w.getenvPassphrase ≠ [] then ((s.alloc w.getenvPassphrase).1, Except.ok (s.alloc w.getenvPassphrase).2)
  else
    match readPassword w 0 s with
    | (s, Except.error err) => (s, Except.error err)
    | (s, Except.ok passphrase) =>
      match readPassword w 1 (s.emit (Event.askPassphrase confirmPrompt)) with
      | (s, Except.error err) => (zeroBytes s passphrase, Except.error err)
      | (s, Except.ok confirm) =>
        if s.load passphrase ≠ s.load confirm then
          (zeroBytes (zeroBytes s passphrase) confirm, Except.error "passphrases do not match")
        else (zeroBytes s confirm, Except.ok passphrase)

/-! ## crypto.go: key derivation and the keyset -/

/-- `deriveKey` of crypto.go: the call of `argon2.IDKey`; the key is a fresh
buffer. -/
def deriveKey (w : World) (s : State) (passphrase salt : Bytes)
    (time memory threads keyLen : Nat) : State × Nat :=
  (s.emit (Event.argon2 ⟨passphrase, salt, time, memory, threads, keyLen⟩)).alloc
    (w.argon2IDKey passphrase salt time memory threads keyLen)

/-- `createKeysetFromKey` of crypto.go: the key value is the base64 text of the
protobuf message; the keyset JSON around it is a constant template, and Tink's
answer to it is the world's. -/
def createKeysetFromKey (w : World) (key : Bytes) : Option String :=
  let keyValue := base64Encode (buildAesGcmHkdfStreamingKeyValue key)
  w.keysetRead keyValue

/-- Function exit: the deferred `zeroBytes` calls run, last deferred first. -/
def leave (defers : List Nat) (s : State) (err : Option String) : State × Option String :=
  (defers.foldl zeroBytes s, err)

/-! ## encrypt.go -/

/-- The header `encrypt` builds for the given options and salt. -/
def encryptHeader (opts : EncryptOptions) (salt : Bytes) : SealedHeader :=
  { Version := Version
    Algorithm := "AES256-GCM-HKDF-1MB"
    Format := if opts.UseBase64 then "base64" else "binary"
    KDF :=
      { Algorithm := "argon2id"
        Salt := String.mk (base64Encode salt)
        Time := opts.Argon2Time
        Memory := opts.Argon2Memory
        Threads := Argon2Threads
        KeyLen := Argon2KeyLen } }

/-- `encrypt` of encrypt.go. The result is the final state and the returned
error; `defers` lists the buffers of the pending `defer zeroBytes` calls. -/
def encrypt (opts : EncryptOptions) (w : World) (s : State) : State × Option String :=
  match getPassphraseWithConfirm w "Enter passphrase: " "Confirm passphrase: " s with
  | (s, Except.error err) => (s, some ("failed to get passphrase: " ++ err))
  | (s, Except.ok passphrase) =>
    let defers := [passphrase]
    if (s.load passphrase).length = 0 then leave defers s (some "passphrase cannot be empty")
    else
    match w.randRead SaltLen with
    | Except.error err => leave defers s (some ("failed to generate salt: " ++ err))
    | Except.ok salt =>
    let sk := deriveKey w s (s.load passphrase) salt opts.Argon2Time opts.Argon2Memory
      Argon2Threads Argon2KeyLen
    let s := sk.1
    let key := sk.2
    let defers := key :: defers
    match createKeysetFromKey w (s.load key) with
    | some err => leave defers s (some ("failed to create keyset: " ++ err))
    | none =>
    match w.streamingaeadNew with
    | some err => leave defers s (some ("failed to create streaming AEAD: " ++ err))
    | none =>
    let header := encryptHeader opts salt
    match w.jsonMarshal header with
    | Except.error err => leave defers s (some ("failed to marshal header: " ++ err))
    | Except.ok headerBytes =>
    match w.stdoutWrite 0 with
    | some err => leave defers s (some ("failed to write header: " ++ err))
    | none =>
    let s := s.emit (Event.stdout headerBytes)
    match w.stdoutWrite 1 with
    | some err => leave defers s (some ("failed to write header newline: " ++ err))
    | none =>
    let s := s.emit (Event.stdout [10])
    match w.newEncryptingWriter with
    | some err => leave defers s (some ("failed to create encrypting writer: " ++ err))
    | none =>
    match w.copy with
    | some err => leave defers s (some ("encryption failed: " ++ err))
    | none =>
    match w.encWriterClose with
    | some err => leave defers s (some ("failed to finalize encryption: " ++ err))
    | none =>
    match w.outputWriterClose with
    | some err => leave defers s (some ("failed to finalize output: " ++ err))
    | none =>
    match (if opts.UseBase64 then w.finalNewline else none) with
    | some err => leave defers s (some ("failed to write final newline: " ++ err))
    | none =>
    match w.flush with
    | some err => leave defers s (some ("failed to flush output: " ++ err))
    | none => leave defers s none

/-! ## decrypt.go -/

/-- `bufio.Reader.ReadBytes(delim)`: the bytes up to and including the first
delimiter and what follows them; `EOF` when there is no delimiter. -/
def readBytes (input : Bytes) (delim : Nat) : Except String (Bytes × Bytes) :=
  match input.span (fun b => b != delim) with
  | (_, []) => Except.error "EOF"
  | (line, d :: rest) => Except.ok (line ++ [d], rest)

/-- `decrypt` of decrypt.go. -/
def decrypt (w : World) (s : State) : State × Option String :=
  match readBytes w.stdin 10 with
  | Except.error err =>
    (s, some ("failed to read header (is it a valid jfcrypt file?): " ++ err))
  | Except.ok (headerLine, _) =>
    match w.jsonUnmarshal headerLine with
    | Except.error err =>
      (s, some ("failed to parse header (is it a valid jfcrypt file?): " ++ err))
    | Except.ok header =>
    if header.Version = "" then (s, some "invalid jfcrypt file: missing version")
    else
    if header.Algorithm ≠ "AES256-GCM-HKDF-1MB" then
      (s, some ("unsupported algorithm: " ++ header.Algorithm))
    else
    if header.KDF.Algorithm ≠ "argon2id" then
      (s, some ("unsupported KDF: " ++ header.KDF.Algorithm))
    else
    let format := if header.Format = "" then "base64" else header.Format
    if format ≠ "binary" ∧ format ≠ "base64" then (s, some ("unsupported format: " ++ format))
    else
    match base64Decode header.KDF.Salt.toList with
    | Except.error err => (s, some ("invalid salt encoding: " ++ err))
    | Except.ok salt =>
    match getPassphrase w "Enter passphrase: " s with
    | (s, Except.error err) => (s, some ("failed to get passphrase: " ++ err))
    | (s, Except.ok passphrase) =>
    let defers := [passphrase]
    if (s.load passphrase).length = 0 then leave defers s (some "passphrase cannot be empty")
    else
    let sk := deriveKey w s (s.load passphrase) salt header.KDF.Time header.KDF.Memory
      header.KDF.Threads header.KDF.KeyLen
    let s := sk.1
    let key := sk.2
    let defers := key :: defers
    match createKeysetFromKey w (s.load key) with
    | some err => leave defers s (some ("failed to create keyset: " ++ err))
    | none =>
    match w.streamingaeadNew with
    | some err => leave defers s (some ("failed to create streaming AEAD: " ++ err))
    | none =>
    let s := s.emit (Event.inputReader
      (if format = "base64" then ReaderKind.base64Trimmed else ReaderKind.raw))
    match w.newDecryptingReader with
    | some err => leave defers s (some ("failed to create decrypting reader: " ++ err))
    | none =>
    match w.copy with
    | some err =>
      leave defers s (some ("decryption failed (wrong passphrase or corrupted data?): " ++ err))
    | none =>
    match w.flush with
    | some err => leave defers s (some ("failed to flush output: " ++ err))
    | none => leave defers s none

/-! ## Go library functions used by main.go (reference models) -/

/-- Go's `unicode.IsSpace`. -/
def isSpace (c : Char) : Bool :=
  let n := c.toNat
  n == 9 || n == 10 || n == 11 || n == 12 || n == 13 || n == 32 || n == 0x85 || n == 0xA0 ||
    n == 0x1680 || (0x2000 ≤ n && n ≤ 0x200a) || n == 0x2028 || n == 0x2029 || n == 0x202f ||
    n == 0x205f || n == 0x3000

/-- Go's `strings.TrimSpace`, on the characters of the string. -/
def trimSpace (s : List Char) : List Char :=
  ((s.dropWhile isSpace).reverse.dropWhile isSpace).reverse

/-- Go's `strings.ToUpper`, on the characters of the string; the case mapping is
modelled on the ASCII letters, every other character is left as it is. -/
def toUpper (s : List Char) : List Char := s.map Char.toUpper

/-- Go's `strings.HasSuffix`. -/
def hasSuffix (s suffix : List Char) : Bool := suffix.isSuffixOf s

/-- Go's `strings.TrimSuffix`. -/
def trimSuffix (s suffix : List Char) : List Char :=
  if hasSuffix s suffix then s.take (s.length - suffix.length) else s

/-- Go's `strings.HasPrefix`. -/
def hasPrefix (s pre : List Char) : Bool := pre.isPrefixOf s

/-- Go's `strings.TrimPrefix`. -/
def trimPrefix (s pre : List Char) : List Char :=
  if hasPrefix s pre then s.drop pre.length else s

/-- The digit loop of Go's `strconv.ParseUint` in base 10: `n` is the `uint64`
accumulator, `maxVal` is `1<<bitSize - 1`, the cutoff is `maxUint64/10 + 1`. -/
def parseUintLoop (maxVal : Nat) : List Char → Nat → Except String Nat
  | [], n => Except.ok n
  | c :: cs, n =>
    if 48 ≤ c.toNat ∧ c.toNat ≤ 57 then
      let d := c.toNat - 48
      if (2 ^ 64 - 1) / 10 + 1 ≤ n then Except.error "value out of range"
      else
        let n10 := (n * 10) % 2 ^ 64
        let n1 := (n10 + d) % 2 ^ 64
        if n1 < n10 ∨ maxVal < n1 then Except.error "value out of range"
        else parseUintLoop maxVal cs n1
    else Except.error "invalid syntax"

/-- Go's `strconv.ParseUint(s, 10, bitSize)`. -/
def parseUint (s : List Char) (bitSize : Nat) : Except String Nat :=
  if s = [] then Except.error "invalid syntax"
  else parseUintLoop (2 ^ bitSize - 1) s 0

/-! ## main.go -/

/-- `parseMemory` of main.go, on the characters of its argument; the result is
the `uint32` number of kilobytes. -/
def parseMemory (s : List Char) : Except String Nat :=
  let s := toUpper (trimSpace s)
  let multiplier := 1024
  let (multiplier, s) :=
    if hasSuffix s "GB".toList || hasSuffix s "G".toList then
      (1024 * 1024, trimSuffix (trimSuffix s "GB".toList) "G".toList)
    else if hasSuffix s "MB".toList || hasSuffix s "M".toList then
      (1024, trimSuffix (trimSuffix s "MB".toList) "M".toList)
    else if hasSuffix s "KB".toList || hasSuffix s "K".toList then
      (1, trimSuffix (trimSuffix s "KB".toList) "K".toList)
    else (multiplier, s)
  match parseUint s 32 with
  | Except.error err => Except.error err
  | Except.ok val =>
    let result := (val * multiplier) % 2 ^ 64
    if 0xFFFFFFFF < result then Except.error "memory value too large"
    else if result < 1024 then Except.error "memory must be at least 1MB"
    else Except.ok (result % 2 ^ 32)

/-- The option loop of `run`, over `os.Args[2:]`. -/
def runOptions : List String → EncryptOptions → Except String EncryptOptions
  | [], opts => Except.ok opts
  | arg :: rest, opts =>
    if arg = "--base64" ∨ arg = "-b" then runOptions rest { opts with UseBase64 := true }
    else if hasPrefix arg.toList "--memory=".toList then
      match parseMemory (trimPrefix arg.toList "--memory=".toList) with
      | Except.error err => Except.error ("invalid memory value: " ++ err)
      | Except.ok val => runOptions rest { opts with Argon2Memory := val }
    else if hasPrefix arg.toList "-m=".toList then
      match parseMemory (trimPrefix arg.toList "-m=".toList) with
      | Except.error err => Except.error ("invalid memory value: " ++ err)
      | Except.ok val => runOptions rest { opts with Argon2Memory := val }
    else if hasPrefix arg.toList "--iterations=".toList then
      match parseUint (trimPrefix arg.toList "--iterations=".toList) 32 with
      | Except.error err => Except.error ("invalid iterations value: " ++ err)
      | Except.ok val =>
        if val < 1 then Except.error "iterations must be at least 1"
        else runOptions rest { opts with Argon2Time := val % 2 ^ 32 }
    else if hasPrefix arg.toList "-i=".toList then
      match parseUint (trimPrefix arg.toList "-i=".toList) 32 with
      | Except.error err => Except.error ("invalid iterations value: " ++ err)
      | Except.ok val =>
        if val < 1 then Except.error "iterations must be at least 1"
        else runOptions rest { opts with Argon2Time := val % 2 ^ 32 }
    else runOptions rest opts

/-- The options `run` starts from. -/
def defaultOptions : EncryptOptions :=
  { UseBase64 := false, Argon2Memory := 1024 * 1024, Argon2Time := 3 }

/-- `run` of main.go. -/
def run (w : World) (s : State) : State × Option String :=
  if w.args.length < 2 then (s.emit Event.usage, some "no command specified")
  else
    let command := w.args.getD 1 ""
    match runOptions (w.args.drop 2) defaultOptions with
    | Except.error err => (s, some err)
    | Except.ok opts =>
      if command = "--encrypt" ∨ command = "-e" then encrypt opts w s
      else if command = "--decrypt" ∨ command = "-d" then decrypt w s
      else if command = "--help" ∨ command = "-h" then (s.emit Event.usage, none)
      else if command = "--version" ∨ command = "-v" then (s.emit Event.version, none)
      else (s.emit Event.usage, some ("unknown command: " ++ command))

/-- A decimal digit character. -/
def isDecimalDigit (c : Char) : Bool := 48 ≤ c.toNat && c.toNat ≤ 57

/-- The value of a decimal numeral. -/
def decimalValue (digits : List Char) : Nat :=
  digits.foldl (fun n c => 10 * n + (c.toNat - 48)) 0

/-- The multiplier the usage text gives a unit suffix (in upper case): kilobytes
per unit, a bare number counting megabytes. -/
def unitMultiplier (u : List Char) : Option Nat :=
  if u = [] ∨ u = "M".toList ∨ u = "MB".toList then some 1024
  else if u = "G".toList ∨ u = "GB".toList then some 1048576
  else if u = "K".toList ∨ u = "KB".toList then some 1
  else none

/-! ## Example environments -/

/-- The text `json.Marshal` produces for a header whose strings need no escaping. -/
def marshalHeader (h : SealedHeader) : Bytes :=
  ("\x7b\"version\":\"" ++ h.Version ++ "\",\"algorithm\":\"" ++ h.Algorithm ++
    "\",\"format\":\"" ++ h.Format ++ "\",\"kdf\":\x7b\"algorithm\":\"" ++ h.KDF.Algorithm ++
    "\",\"salt\":\"" ++ h.KDF.Salt ++ "\",\"time\":" ++ toString h.KDF.Time ++
    ",\"memory\":" ++ toString h.KDF.Memory ++ ",\"threads\":" ++ toString h.KDF.Threads ++
    ",\"keylen\":" ++ toString h.KDF.KeyLen ++ "\x7d\x7d").toList.map Char.toNat

/-- A stand-in for Argon2id in example runs: `keyLen` bytes that depend on every
argument. -/
def toyKDF (passphrase salt : Bytes) (time memory threads keyLen : Nat) : Bytes :=
  (List.range keyLen).map
    (fun i => (passphrase.sum + salt.sum + time + memory + threads + i) % 256)

/-- An environment in which nothing fails: the passphrase comes from the
environment variable, standard input holds the JSON text of `h`, a line feed and
`payload`, and the JSON library knows the text of `h`. -/
def exampleWorld (args : List String) (passphrase : Bytes) (salt : Bytes) (h : SealedHeader)
    (payload : Bytes) : World :=
  { args := args
    getenvPassphrase := passphrase
    terminal := fun _ => Except.error "no terminal"
    randRead := fun n => Except.ok (salt.take n)
    argon2IDKey := toyKDF
    keysetRead := fun _ => none
    streamingaeadNew := none
    jsonMarshal := fun x => Except.ok (marshalHeader x)
    jsonUnmarshal := fun line =>
      if line = marshalHeader h ++ [10] then Except.ok h
      else Except.error "invalid character"
    stdin := marshalHeader h ++ [10] ++ payload
    stdoutWrite := fun _ => none
    newEncryptingWriter := none
    newDecryptingReader := none
    copy := none
    encWriterClose := none
    outputWriterClose := none
    finalNewline := none
    flush := none }

/-- The sixteen salt bytes of the example runs. -/
def exampleSalt : Bytes := [1, 2, 3, 4, 5, 6, 7, 8, 9, 10, 11, 12, 13, 14, 15, 255]

/-- The header `encrypt` writes with the default options and the example salt. -/
def exampleHeader : SealedHeader := encryptHeader defaultOptions exampleSalt

/-! ## Properties of states -/

/-- Every secret buffer recorded in the trace is still there with its length, and
those not in `live` hold zeros only. -/
def State.tracked (s : State) (live : List Nat) : Prop :=
  ∀ a c, Event.secret a c ∈ s.trace →
    ∃ b, s.heap[a]? = some b ∧ b.length = c.length ∧ (a ∉ live → b = List.replicate c.length 0)

/-- Every secret buffer obtained so far, the one at `kept` apart, has its length
and holds zeros only. -/
def State.wiped (s : State) (kept : Option Nat) : Prop :=
  ∀ a c, Event.secret a c ∈ s.trace → kept ≠ some a →
    s.heap[a]? = some (List.replicate c.length 0)

/-- The buffer a call hands back to its caller, if any. -/
def handedBack (r : Except String Nat) : Option Nat :=
  match r with
  | Except.ok a => some a
  | Except.error _ => none

/-! ## Theorems -/

set_option maxRecDepth 1000000
set_option linter.unusedTactic false
set_option linter.unreachableTactic false

theorem lor_continuation (x : Nat) (hx : x < 256) :
    0x80 ≤ (x ||| 0x80) ∧ (x ||| 0x80) % 0x80 = x % 0x80 ∧ (x ||| 0x80) < 256 := by
  revert x
  decide

theorem decodeVarint_encodeVarintLoop (fuel v : Nat) (rest : Bytes) (h : v ≤ fuel) :
    decodeVarint (encodeVarintLoop fuel v ++ rest) = some (v, rest) := by
  induction fuel generalizing v with
  | zero =>
    have hv : v = 0 := by omega
    subst hv
    rfl
  | succ fuel ih =>
    unfold encodeVarintLoop
    by_cases h80 : 0x80 ≤ v
    · have hlt : v >>> 7 ≤ fuel := by
        simp only [Nat.shiftRight_eq_div_pow]
        omega
      have hb := lor_continuation (toByte v) (by unfold toByte; omega)
      simp only [h80, if_true, List.cons_append, decodeVarint]
      rw [if_neg (by omega), ih _ hlt]
      simp only [Nat.shiftRight_eq_div_pow, toByte] at *
      simp only [Option.some.injEq, Prod.mk.injEq, and_true]
      omega
    · simp only [h80, if_false, List.cons_append, List.nil_append, decodeVarint, toByte]
      rw [if_pos (by omega)]
      simp only [Option.some.injEq, Prod.mk.injEq, and_true]
      omega

theorem decodeVarint_encodeVarint (v : Nat) (rest : Bytes) :
    decodeVarint (encodeVarint v ++ rest) = some (v, rest) :=
  decodeVarint_encodeVarintLoop v v rest (Nat.le_refl v)

theorem encodeVarintLoop_bytes (fuel v : Nat) : ∀ b ∈ encodeVarintLoop fuel v, b < 256 := by
  induction fuel generalizing v with
  | zero =>
    intro b hb
    simp only [encodeVarintLoop, List.mem_singleton] at hb
    subst hb
    unfold toByte
    omega
  | succ fuel ih =>
    intro b hb
    unfold encodeVarintLoop at hb
    have hlor := lor_continuation (toByte v) (by unfold toByte; omega)
    split at hb
    · rcases List.mem_cons.mp hb with h | h
      · subst h
        exact hlor.2.2
      · exact ih _ b h
    · simp only [List.mem_singleton] at hb
      subst hb
      unfold toByte
      omega

theorem buildParams_eq : buildParams = [8, 128, 128, 64, 16, 32, 24, 3] := by
  decide

theorem build_eq (key : Bytes) :
    buildAesGcmHkdfStreamingKeyValue key =
      [8, 0, 18, 8, 8, 128, 128, 64, 16, 32, 24, 3, 26, toByte key.length] ++ key := by
  unfold buildAesGcmHkdfStreamingKeyValue
  rw [buildParams_eq]
  rfl

theorem decodeVarint_small (b : Nat) (rest : Bytes) (h : b < 0x80) :
    decodeVarint (b :: rest) = some (b, rest) := by
  simp [decodeVarint, h]

theorem decodeFields_varint_step (fuel tag v : Nat) (rest : Bytes) (ht : tag < 0x80)
    (h0 : tag % 8 = 0) (hv : v < 0x80) :
    decodeFields (fuel + 1) (tag :: v :: rest) =
      (decodeFields fuel rest).map (fun fs => (tag / 8, WireValue.varint v) :: fs) := by
  rw [decodeFields, decodeVarint_small _ _ ht]
  simp only [h0, if_true, decodeVarint_small _ _ hv]
  cases decodeFields fuel rest <;> rfl

theorem decodeFields_bytes_step (fuel tag : Nat) (body rest : Bytes) (ht : tag < 0x80)
    (h2 : tag % 8 = 2) (hl : body.length < 0x80) :
    decodeFields (fuel + 1) (tag :: body.length :: (body ++ rest)) =
      (decodeFields fuel rest).map (fun fs => (tag / 8, WireValue.bytes body) :: fs) := by
  rw [decodeFields, decodeVarint_small _ _ ht]
  have h0 : ¬ tag % 8 = 0 := by omega
  simp only [h0, h2, if_true, if_false, decodeVarint_small _ _ hl]
  have hfit : ¬ (body ++ rest).length < body.length := by simp
  simp only [hfit, if_false, List.drop_left, List.take_left]
  cases decodeFields fuel rest <;> rfl

theorem decodeFields_build (key : Bytes) (hlen : key.length ≤ 127) :
    decodeFields (buildAesGcmHkdfStreamingKeyValue key).length
        (buildAesGcmHkdfStreamingKeyValue key) =
      some [(1, WireValue.varint 0), (2, WireValue.bytes buildParams),
        (3, WireValue.bytes key)] := by
  have hb : toByte key.length = key.length := by unfold toByte; omega
  have hshape : buildAesGcmHkdfStreamingKeyValue key =
      8 :: 0 :: (18 :: buildParams.length :: (buildParams ++
        (26 :: key.length :: (key ++ [])))) := by
    rw [build_eq, hb, buildParams_eq]
    simp
  have hfuel : (buildAesGcmHkdfStreamingKeyValue key).length = key.length + 11 + 1 + 1 + 1 := by
    rw [build_eq]
    simp
  rw [hfuel, hshape,
    decodeFields_varint_step _ 8 0 _ (by decide) (by decide) (by decide),
    decodeFields_bytes_step _ 18 buildParams _ (by decide) (by decide)
      (by rw [buildParams_eq]; decide),
    decodeFields_bytes_step _ 26 key [] (by decide) (by decide) (by omega)]
  rfl

theorem decodeFields_params :
    decodeFields buildParams.length buildParams =
      some [(1, WireValue.varint 1048576), (2, WireValue.varint 32), (3, WireValue.varint 3)] := by
  have h : decodeVarint (128 :: 128 :: 64 :: [16, 32, 24, 3]) = some (1048576, [16, 32, 24, 3]) := by
    simp [decodeVarint]
  rw [buildParams_eq]
  show decodeFields (5 + 1 + 1 + 1) _ = _
  rw [decodeFields, decodeVarint_small _ _ (by decide)]
  simp only [h]
  rw [decodeFields_varint_step _ 16 32 _ (by decide) (by decide) (by decide),
    decodeFields_varint_step _ 24 3 _ (by decide) (by decide) (by decide)]
  rfl

theorem decodeParams_buildParams : decodeParams buildParams = some ⟨1048576, 32, 3⟩ := by
  unfold decodeParams
  rw [decodeFields_params]
  rfl

theorem decodeKey_build (key : Bytes) (hlen : key.length ≤ 127) :
    decodeKey (buildAesGcmHkdfStreamingKeyValue key) =
      some ⟨0, some ⟨1048576, 32, 3⟩, key⟩ := by
  unfold decodeKey
  rw [decodeFields_build key hlen]
  have hb : fieldBytes 2 [(1, WireValue.varint 0), (2, WireValue.bytes buildParams),
      (3, WireValue.bytes key)] = some buildParams := rfl
  have hk : fieldBytes 3 [(1, WireValue.varint 0), (2, WireValue.bytes buildParams),
      (3, WireValue.bytes key)] = some key := rfl
  have hv : fieldVarint 1 [(1, WireValue.varint 0), (2, WireValue.bytes buildParams),
      (3, WireValue.bytes key)] = 0 := rfl
  simp only [hb, hk, hv, decodeParams_buildParams, Option.getD_some]

theorem encodeVarintLoop_length (fuel v k : Nat) (hv : v < 2 ^ (7 * (k + 1))) :
    (encodeVarintLoop fuel v).length ≤ k + 1 := by
  induction fuel generalizing v k with
  | zero => simp [encodeVarintLoop]
  | succ fuel ih =>
    unfold encodeVarintLoop
    split
    · rename_i h80
      cases k with
      | zero =>
        norm_num at hv
        omega
      | succ k =>
        have hshift : v >>> 7 < 2 ^ (7 * (k + 1)) := by
          rw [Nat.shiftRight_eq_div_pow, Nat.div_lt_iff_lt_mul (by norm_num)]
          calc v < 2 ^ (7 * (k + 1 + 1)) := hv
            _ = 2 ^ (7 * (k + 1)) * 2 ^ 7 := by
              rw [← Nat.pow_add]
              congr 1
        have := ih (v >>> 7) k hshift
        simp only [List.length_cons]
        omega
    · simp

theorem encodeVarint_length (v : Nat) (hv : v < 2 ^ 32) : (encodeVarint v).length ≤ 5 := by
  unfold encodeVarint
  exact encodeVarintLoop_length v v 4 (Nat.lt_of_lt_of_le hv (by norm_num))

/-- C10: for a key of at most 127 bytes, `buildAesGcmHkdfStreamingKeyValue key` is a
well-formed protobuf encoding of an `AesGcmHkdfStreamingKey`: it decodes to version 0,
params with segment size 1048576, derived key size 32 and hash type 3, and `key_value`
equal to `key`; the message is the version field, the params field whose length byte is
the length of the params submessage, and the key field; and for every `uint32` value
`encodeVarint` yields bytes whose base-128 varint decoding is that value. -/
theorem buildAesGcmHkdfStreamingKeyValue_wellformed (key : Bytes) (hlen : key.length ≤ 127)
    (v : Nat) (hv : v < 2 ^ 32) (rest : Bytes) :
    decodeKey (buildAesGcmHkdfStreamingKeyValue key) =
      some ⟨0, some ⟨1048576, 32, 3⟩, key⟩ ∧
    buildAesGcmHkdfStreamingKeyValue key =
      [0x08, 0x00, 0x12, buildParams.length] ++ buildParams ++ [0x1a, key.length] ++ key ∧
    decodeParams buildParams = some ⟨1048576, 32, 3⟩ ∧
    decodeVarint (encodeVarint v ++ rest) = some (v, rest) ∧
    (∀ b ∈ encodeVarint v, b < 256) ∧
    (encodeVarint v).length ≤ 5 := by
  have hb : toByte key.length = key.length := by unfold toByte; omega
  refine ⟨decodeKey_build key hlen, ?_, decodeParams_buildParams,
    decodeVarint_encodeVarint v rest, encodeVarintLoop_bytes v v, encodeVarint_length v hv⟩
  rw [build_eq, hb, buildParams_eq]
  rfl

/-- Witness for C10: a 32-byte key and the segment size as varint. -/
theorem buildAesGcmHkdfStreamingKeyValue_wellformed_witness :
    (List.replicate 32 7).length ≤ 127 ∧ 1048576 < 2 ^ 32 ∧
    decodeKey (buildAesGcmHkdfStreamingKeyValue (List.replicate 32 7)) =
      some ⟨0, some ⟨1048576, 32, 3⟩, List.replicate 32 7⟩ ∧
    decodeVarint (encodeVarint 1048576 ++ []) = some (1048576, []) :=
  ⟨by decide, by decide,
    (buildAesGcmHkdfStreamingKeyValue_wellformed (List.replicate 32 7) (by decide) 1048576
      (by decide) []).1,
    (buildAesGcmHkdfStreamingKeyValue_wellformed (List.replicate 32 7) (by decide) 1048576
      (by decide) []).2.2.2.1⟩

/-! ### The newline-trimming reader -/

theorem take_succ_getD (p : Bytes) (n : Nat) (h : n < p.length) :
    p.take (n + 1) = p.take n ++ [p.getD n 0] := by
  rw [List.take_succ, List.getD_eq_getElem?_getD, List.getElem?_eq_getElem h]
  rfl

theorem trimLoop_le (p : Bytes) (n : Nat) : trimLoop p n ≤ n := by
  induction n with
  | zero => simp [trimLoop]
  | succ n ih =>
    unfold trimLoop
    split
    · omega
    · exact Nat.le_refl _

theorem trimLoop_take (p : Bytes) (n : Nat) (h : n ≤ p.length) :
    p.take (trimLoop p n) = (p.take n).rdropWhile isNewline := by
  induction n with
  | zero => simp [trimLoop]
  | succ n ih =>
    rw [take_succ_getD p n (by omega)]
    unfold trimLoop
    by_cases hnl : p.getD n 0 = 10 ∨ p.getD n 0 = 13
    · rw [if_pos hnl, List.rdropWhile_concat_pos _ _ _ (by simpa [isNewline] using hnl)]
      exact ih (by omega)
    · rw [if_neg hnl, List.rdropWhile_concat_neg _ _ _ (by simpa [isNewline] using hnl),
        take_succ_getD p n (by omega)]

theorem trimLoop_dropped (p : Bytes) (n : Nat) (h : n ≤ p.length) :
    ∃ tail, p.take n = p.take (trimLoop p n) ++ tail ∧ ∀ b ∈ tail, b = 10 ∨ b = 13 := by
  induction n with
  | zero => exact ⟨[], by simp [trimLoop]⟩
  | succ n ih =>
    rw [take_succ_getD p n (by omega)]
    unfold trimLoop
    by_cases hnl : p.getD n 0 = 10 ∨ p.getD n 0 = 13
    · rw [if_pos hnl]
      obtain ⟨tail, ht, hall⟩ := ih (by omega)
      refine ⟨tail ++ [p.getD n 0], by rw [ht, List.append_assoc], ?_⟩
      intro b hb
      rcases List.mem_append.mp hb with hb | hb
      · exact hall b hb
      · rw [List.mem_singleton.mp hb]
        exact hnl
    · rw [if_neg hnl, take_succ_getD p n (by omega)]
      exact ⟨[], by simp⟩

theorem trimLoop_last (p : Bytes) (n : Nat) (h : n ≤ p.length) :
    p.take (trimLoop p n) = [] ∨
      ∃ init last, p.take (trimLoop p n) = init ++ [last] ∧ last ≠ 10 ∧ last ≠ 13 := by
  induction n with
  | zero => left; simp [trimLoop]
  | succ n ih =>
    unfold trimLoop
    by_cases hnl : p.getD n 0 = 10 ∨ p.getD n 0 = 13
    · rw [if_pos hnl]
      exact ih (by omega)
    · rw [if_neg hnl, take_succ_getD p n (by omega)]
      right
      exact ⟨p.take n, p.getD n 0, rfl, fun h10 => hnl (Or.inl h10), fun h13 => hnl (Or.inr h13)⟩

/-- C7: when the wrapped reader delivers `n` bytes into `p` (`n ≤ len(p)`),
`newlineTrimmingReader.Read` leaves the buffer as the wrapped reader filled it,
returns a count `n' ≤ n` with `p[:n']` equal to `p[:n]` without its longest trailing
run of LF and CR bytes: `p[:n] = p[:n'] ++ tail` with every byte of `tail` LF or CR,
and `p[:n']` empty or ending in a byte that is neither; the error is the wrapped
reader's error. -/
theorem newlineTrimmingReader_Read_spec (inner : Bytes → Bytes × Nat × Option String)
    (p : Bytes) (hn : (inner p).2.1 ≤ (inner p).1.length) :
    (newlineTrimmingReader.Read inner p).1 = (inner p).1 ∧
    (newlineTrimmingReader.Read inner p).2.1 ≤ (inner p).2.1 ∧
    (inner p).1.take (newlineTrimmingReader.Read inner p).2.1 =
      ((inner p).1.take (inner p).2.1).rdropWhile isNewline ∧
    (∃ tail, (inner p).1.take (inner p).2.1 =
        (inner p).1.take (newlineTrimmingReader.Read inner p).2.1 ++ tail ∧
      ∀ b ∈ tail, b = 10 ∨ b = 13) ∧
    ((inner p).1.take (newlineTrimmingReader.Read inner p).2.1 = [] ∨
      ∃ init last, (inner p).1.take (newlineTrimmingReader.Read inner p).2.1 = init ++ [last] ∧
        last ≠ 10 ∧ last ≠ 13) ∧
    (newlineTrimmingReader.Read inner p).2.2 = (inner p).2.2 := by
  have hread : newlineTrimmingReader.Read inner p =
      ((inner p).1, trimLoop (inner p).1 (inner p).2.1, (inner p).2.2) := by
    unfold newlineTrimmingReader.Read
    by_cases h0 : 0 < (inner p).2.1
    · simp only [h0, if_true]
    · have hz : (inner p).2.1 = 0 := by omega
      simp only [hz, Nat.lt_irrefl, if_false, trimLoop]
  rw [hread]
  exact ⟨rfl, trimLoop_le _ _, trimLoop_take _ _ hn, trimLoop_dropped _ _ hn,
    trimLoop_last _ _ hn, rfl⟩

/-- Witness for C7: a read that delivers `a b LF CR LF` into an eight-byte buffer. -/
theorem newlineTrimmingReader_Read_spec_witness :
    (newlineTrimmingReader.Read (fun _ => ([97, 98, 10, 13, 10, 0, 0, 0], 5, none))
        [0, 0, 0, 0, 0, 0, 0, 0]).2.1 = 2 ∧
    (newlineTrimmingReader.Read (fun _ => ([97, 98, 10, 13, 10, 0, 0, 0], 5, none))
        [0, 0, 0, 0, 0, 0, 0, 0]).2.1 ≤ 5 :=
  ⟨by decide,
   (newlineTrimmingReader_Read_spec (fun _ => ([97, 98, 10, 13, 10, 0, 0, 0], 5, none))
      [0, 0, 0, 0, 0, 0, 0, 0] (by decide)).2.1⟩

/-! ### parseMemory -/

theorem dropWhile_isSpace_append (ws rest : List Char) (h : ∀ c ∈ ws, isSpace c = true) :
    (ws ++ rest).dropWhile isSpace = rest.dropWhile isSpace := by
  induction ws with
  | nil => rfl
  | cons c ws ih =>
    have hc : isSpace c = true := h c (List.mem_cons_self _ _)
    rw [List.cons_append, List.dropWhile_cons_of_pos hc]
    exact ih (fun x hx => h x (List.mem_cons_of_mem _ hx))

theorem dropWhile_isSpace_of_head (body : List Char) (hne : body ≠ [])
    (h : ∀ c ∈ body, isSpace c = false) (rest : List Char) :
    (body ++ rest).dropWhile isSpace = body ++ rest := by
  cases body with
  | nil => exact absurd rfl hne
  | cons c cs =>
    have hc : isSpace c = false := h c (List.mem_cons_self _ _)
    rw [List.cons_append, List.dropWhile_cons_of_neg (by simp [hc])]

theorem trimSpace_sandwich (ws1 body ws2 : List Char) (h1 : ∀ c ∈ ws1, isSpace c = true)
    (h2 : ∀ c ∈ ws2, isSpace c = true) (hne : body ≠ [])
    (hb : ∀ c ∈ body, isSpace c = false) :
    trimSpace (ws1 ++ body ++ ws2) = body := by
  unfold trimSpace
  rw [List.append_assoc, dropWhile_isSpace_append ws1 _ h1,
    dropWhile_isSpace_of_head body hne hb, List.reverse_append,
    dropWhile_isSpace_append ws2.reverse _ (fun c hc => h2 c (List.mem_reverse.mp hc))]
  have h := dropWhile_isSpace_of_head body.reverse (by simpa using hne)
    (fun c hc => hb c (List.mem_reverse.mp hc)) []
  rw [List.append_nil] at h
  rw [h, List.reverse_reverse]

theorem decimalValue_le_foldl (cs : List Char) (n : Nat) :
    n ≤ cs.foldl (fun n c => 10 * n + (c.toNat - 48)) n := by
  induction cs generalizing n with
  | nil => exact Nat.le_refl _
  | cons c cs ih =>
    rw [List.foldl_cons]
    exact Nat.le_trans (by omega) (ih _)

theorem parseUintLoop_digits (cs : List Char) (n : Nat) (hn : n ≤ 2 ^ 32 - 1)
    (hd : ∀ c ∈ cs, isDecimalDigit c = true) :
    parseUintLoop (2 ^ 32 - 1) cs n =
      if cs.foldl (fun n c => 10 * n + (c.toNat - 48)) n ≤ 2 ^ 32 - 1
      then Except.ok (cs.foldl (fun n c => 10 * n + (c.toNat - 48)) n)
      else Except.error "value out of range" := by
  induction cs generalizing n with
  | nil =>
    simp only [parseUintLoop, List.foldl_nil]
    rw [if_pos hn]
  | cons c cs ih =>
    have hc : 48 ≤ c.toNat ∧ c.toNat ≤ 57 := by
      have := hd c (List.mem_cons_self _ _)
      simpa [isDecimalDigit] using this
    have hcs : ∀ x ∈ cs, isDecimalDigit x = true := fun x hx => hd x (List.mem_cons_of_mem _ hx)
    rw [parseUintLoop, if_pos hc, if_neg (by norm_num at hn ⊢; omega)]
    have h10 : (n * 10) % 2 ^ 64 = n * 10 := Nat.mod_eq_of_lt (by norm_num at hn ⊢; omega)
    have h1 : (n * 10 + (c.toNat - 48)) % 2 ^ 64 = 10 * n + (c.toNat - 48) := by
      rw [Nat.mod_eq_of_lt (by norm_num at hn ⊢; omega)]
      omega
    simp only [h10, h1, List.foldl_cons]
    by_cases hbig : 2 ^ 32 - 1 < 10 * n + (c.toNat - 48)
    · have hmono := decimalValue_le_foldl cs (10 * n + (c.toNat - 48))
      rw [if_pos (Or.inr hbig), if_neg (by omega)]
    · rw [if_neg (by omega)]
      exact ih _ (by omega) hcs

theorem parseUint_digits (digits : List Char) (hne : digits ≠ [])
    (hd : ∀ c ∈ digits, isDecimalDigit c = true) :
    parseUint digits 32 =
      if decimalValue digits ≤ 2 ^ 32 - 1 then Except.ok (decimalValue digits)
      else Except.error "value out of range" := by
  unfold parseUint decimalValue
  rw [if_neg hne]
  exact parseUintLoop_digits digits 0 (by norm_num) hd

theorem digit_not_unit (d : Char) (h : isDecimalDigit d = true) :
    d ≠ 'B' ∧ d ≠ 'G' ∧ d ≠ 'M' ∧ d ≠ 'K' := by
  refine ⟨?_, ?_, ?_, ?_⟩ <;>
  · rintro rfl
    revert h
    decide

theorem suffix_select (digits U : List Char) (m : Nat) (hne : digits ≠ [])
    (hd : ∀ c ∈ digits, isDecimalDigit c = true) (hU : unitMultiplier U = some m) :
    (if hasSuffix (digits ++ U) "GB".toList || hasSuffix (digits ++ U) "G".toList then
      (1024 * 1024, trimSuffix (trimSuffix (digits ++ U) "GB".toList) "G".toList)
    else if hasSuffix (digits ++ U) "MB".toList || hasSuffix (digits ++ U) "M".toList then
      (1024, trimSuffix (trimSuffix (digits ++ U) "MB".toList) "M".toList)
    else if hasSuffix (digits ++ U) "KB".toList || hasSuffix (digits ++ U) "K".toList then
      (1, trimSuffix (trimSuffix (digits ++ U) "KB".toList) "K".toList)
    else (1024, digits ++ U)) = (m, digits) := by
  obtain ⟨d, dr, hrev⟩ : ∃ d dr, digits.reverse = d :: dr := by
    cases hr : digits.reverse with
    | nil => exact absurd (List.reverse_eq_nil_iff.mp hr) hne
    | cons d dr => exact ⟨d, dr, rfl⟩
  have hdig : isDecimalDigit d = true :=
    hd d (List.mem_reverse.mp (by rw [hrev]; exact List.mem_cons_self _ _))
  obtain ⟨hB, hG, hM, hK⟩ := digit_not_unit d hdig
  have hlen : digits.length = dr.length + 1 := by
    rw [← List.length_reverse, hrev, List.length_cons]
  unfold unitMultiplier at hU
  split_ifs at hU with h1 h2 h3
  · rcases h1 with h | h | h <;> subst h <;> cases hU <;>
      simp [hasSuffix, trimSuffix, List.isSuffixOf, hrev, hB.symm, hG.symm, hM.symm, hK.symm]
  · rcases h2 with h | h <;> subst h <;> cases hU <;>
      simp [hasSuffix, trimSuffix, List.isSuffixOf, hrev, hB.symm, hG.symm, hM.symm, hK.symm]
  · rcases h3 with h | h <;> subst h <;> cases hU <;>
      simp [hasSuffix, trimSuffix, List.isSuffixOf, hrev, hB.symm, hG.symm, hM.symm, hK.symm]

theorem toUpper_digit (c : Char) (h : isDecimalDigit c = true) : Char.toUpper c = c := by
  have hc : 48 ≤ c.toNat ∧ c.toNat ≤ 57 := by simpa [isDecimalDigit] using h
  show (if c.toNat ≥ 97 ∧ c.toNat ≤ 122 then Char.ofNat (c.toNat - 32) else c) = c
  rw [if_neg (by omega)]

theorem toUpper_space (c : Char) (h : isSpace c = true) : Char.toUpper c = c := by
  show (if c.toNat ≥ 97 ∧ c.toNat ≤ 122 then Char.ofNat (c.toNat - 32) else c) = c
  simp only [isSpace, Bool.or_eq_true, beq_iff_eq, Bool.and_eq_true, decide_eq_true_eq] at h
  rw [if_neg (by omega)]

theorem unit_chars_not_space (U : List Char) (m : Nat) (hU : unitMultiplier U = some m) :
    ∀ c ∈ U, isSpace c = false := by
  unfold unitMultiplier at hU
  split_ifs at hU with h1 h2 h3
  · rcases h1 with h | h | h <;> subst h <;> decide
  · rcases h2 with h | h <;> subst h <;> decide
  · rcases h3 with h | h <;> subst h <;> decide

/-- C5: for a decimal numeral `digits`, a unit suffix `u` spelled in any letter case
(none, K, KB, M, MB, G, GB, with multiplier `m` = 1, 1024 or 1048576 kilobytes) and
white space around them, `parseMemory` returns exactly `n * m` when
`1024 ≤ n * m ≤ 4294967295` and an error otherwise; the value is the exact product,
not a wrapped one. -/
theorem parseMemory_spec (ws1 digits u ws2 : List Char) (m : Nat)
    (h1 : ∀ c ∈ ws1, isSpace c = true) (h2 : ∀ c ∈ ws2, isSpace c = true)
    (hne : digits ≠ []) (hd : ∀ c ∈ digits, isDecimalDigit c = true)
    (hu : unitMultiplier (toUpper u) = some m) :
    (1024 ≤ decimalValue digits * m ∧ decimalValue digits * m ≤ 4294967295 →
      parseMemory (ws1 ++ (digits ++ u) ++ ws2) = Except.ok (decimalValue digits * m)) ∧
    (¬ (1024 ≤ decimalValue digits * m ∧ decimalValue digits * m ≤ 4294967295) →
      ∃ e, parseMemory (ws1 ++ (digits ++ u) ++ ws2) = Except.error e) := by
  have hdsp : ∀ c ∈ digits, isSpace c = false := by
    intro c hc
    have := hd c hc
    revert this
    simp only [isDecimalDigit, isSpace, Bool.and_eq_true, decide_eq_true_eq, Bool.or_eq_false_iff,
      beq_eq_false_iff_ne, Bool.and_eq_false_iff, decide_eq_false_iff_not, ne_eq]
    intro h
    omega
  have husp : ∀ c ∈ u, isSpace c = false := by
    intro c hc
    by_contra hsp
    have hsp1 : isSpace c = true := by simpa using hsp
    have hmem : Char.toUpper c ∈ toUpper u := List.mem_map_of_mem _ hc
    rw [toUpper_space c hsp1] at hmem
    rw [unit_chars_not_space _ m hu c hmem] at hsp1
    exact Bool.false_ne_true hsp1
  have htrim : trimSpace (ws1 ++ (digits ++ u) ++ ws2) = digits ++ u :=
    trimSpace_sandwich ws1 (digits ++ u) ws2 h1 h2 (by simp [hne])
      (fun c hc => (List.mem_append.mp hc).elim (hdsp c) (husp c))
  have hup : toUpper (digits ++ u) = digits ++ toUpper u := by
    unfold toUpper
    rw [List.map_append]
    congr 1
    conv_rhs => rw [← List.map_id digits]
    exact List.map_congr_left (fun c hc => toUpper_digit c (hd c hc))
  have hm : m = 1 ∨ m = 1024 ∨ m = 1048576 := by
    unfold unitMultiplier at hu
    split_ifs at hu <;> cases hu <;> simp
  have hparse := parseUint_digits digits hne hd
  have hcore : parseMemory (ws1 ++ (digits ++ u) ++ ws2) =
      match parseUint digits 32 with
      | Except.error err => Except.error err
      | Except.ok val =>
        if 0xFFFFFFFF < (val * m) % 2 ^ 64 then Except.error "memory value too large"
        else if (val * m) % 2 ^ 64 < 1024 then Except.error "memory must be at least 1MB"
        else Except.ok ((val * m) % 2 ^ 64 % 2 ^ 32) := by
    unfold parseMemory
    simp only [htrim, hup]
    rw [suffix_select digits (toUpper u) m hne hd hu]
  rw [hcore, hparse]
  constructor
  · rintro ⟨hlo, hhi⟩
    have hv : decimalValue digits ≤ 2 ^ 32 - 1 := by
      rcases hm with h | h | h <;> subst h <;> norm_num at hhi ⊢ <;> omega
    rw [if_pos hv]
    have hmod : (decimalValue digits * m) % 2 ^ 64 = decimalValue digits * m :=
      Nat.mod_eq_of_lt (by norm_num; omega)
    simp only [hmod]
    rw [if_neg (by omega), if_neg (by omega), Nat.mod_eq_of_lt (by norm_num; omega)]
  · intro hout
    by_cases hv : decimalValue digits ≤ 2 ^ 32 - 1
    · rw [if_pos hv]
      have hmod : (decimalValue digits * m) % 2 ^ 64 = decimalValue digits * m := by
        apply Nat.mod_eq_of_lt
        rcases hm with h | h | h <;> subst h <;> norm_num at hv ⊢ <;> omega
      simp only [hmod]
      by_cases hbig : 0xFFFFFFFF < decimalValue digits * m
      · rw [if_pos hbig]
        exact ⟨_, rfl⟩
      · rw [if_neg hbig, if_pos (by omega)]
        exact ⟨_, rfl⟩
    · rw [if_neg hv]
      exact ⟨_, rfl⟩

/-- Witness for C5: `" 64mB"` followed by a line feed is 65536 kilobytes. -/
theorem parseMemory_spec_witness :
    parseMemory ([Char.ofNat 32] ++ ("64".toList ++ "mB".toList) ++ [Char.ofNat 10]) =
      Except.ok (decimalValue "64".toList * 1024) :=
  (parseMemory_spec [Char.ofNat 32] "64".toList "mB".toList [Char.ofNat 10] 1024
    (by decide) (by decide) (by decide) (by decide) (by decide)).1 ⟨by decide, by decide⟩

/-! ### base64 -/

theorem base64Index_base64Char :
    ∀ i, i < 64 → base64Index (base64Char i) = some i ∧ base64Char i ≠ '=' ∧
      (base64Char i).toNat ≠ 13 ∧ (base64Char i).toNat ≠ 10 := by
  decide

theorem base64Encode_no_newline (bs : Bytes) (hb : ∀ b ∈ bs, b < 256) :
    (base64Encode bs).filter (fun c => c.toNat != 13 && c.toNat != 10) = base64Encode bs := by
  rw [List.filter_eq_self]
  induction bs using base64Encode.induct with
  | case1 => simp [base64Encode]
  | case2 a =>
    have ha : a < 256 := hb a (by simp)
    have h1 := base64Index_base64Char (a / 4) (by omega)
    have h2 := base64Index_base64Char (a % 4 * 16) (by omega)
    intro c hc
    simp only [base64Encode, List.mem_cons, List.mem_singleton, List.not_mem_nil, or_false] at hc
    rcases hc with h | h | h | h <;> subst h <;> simp [h1, h2]
  | case3 a b =>
    have ha : a < 256 := hb a (by simp)
    have hb2 : b < 256 := hb b (by simp)
    have h1 := base64Index_base64Char (a / 4) (by omega)
    have h2 := base64Index_base64Char (a % 4 * 16 + b / 16) (by omega)
    have h3 := base64Index_base64Char (b % 16 * 4) (by omega)
    intro c hc
    simp only [base64Encode, List.mem_cons, List.mem_singleton, List.not_mem_nil, or_false] at hc
    rcases hc with h | h | h | h <;> subst h <;> simp [h1, h2, h3]
  | case4 a b c rest ih =>
    have ha : a < 256 := hb a (by simp)
    have hb2 : b < 256 := hb b (by simp)
    have hc2 : c < 256 := hb c (by simp)
    have h1 := base64Index_base64Char (a / 4) (by omega)
    have h2 := base64Index_base64Char (a % 4 * 16 + b / 16) (by omega)
    have h3 := base64Index_base64Char (b % 16 * 4 + c / 64) (by omega)
    have h4 := base64Index_base64Char (c % 64) (by omega)
    have ih2 := ih (fun x hx => hb x (by simp [hx]))
    intro x hx
    simp only [base64Encode, List.mem_cons] at hx
    rcases hx with h | h | h | h | h
    · subst h; simp [h1]
    · subst h; simp [h2]
    · subst h; simp [h3]
    · subst h; simp [h4]
    · exact ih2 x h

theorem base64DecodeQuanta_base64Encode (bs : Bytes) (hb : ∀ b ∈ bs, b < 256) :
    base64DecodeQuanta (base64Encode bs) = some bs := by
  induction bs using base64Encode.induct with
  | case1 => rfl
  | case2 a =>
    have ha : a < 256 := hb a (by simp)
    have h1 := base64Index_base64Char (a / 4) (by omega)
    have h2 := base64Index_base64Char (a % 4 * 16) (by omega)
    simp only [base64Encode, base64DecodeQuanta, h1.1, h2.1, and_self, if_true]
    simp only [Option.some.injEq, List.cons.injEq, and_true]
    omega
  | case3 a b =>
    have ha : a < 256 := hb a (by simp)
    have hb2 : b < 256 := hb b (by simp)
    have h1 := base64Index_base64Char (a / 4) (by omega)
    have h2 := base64Index_base64Char (a % 4 * 16 + b / 16) (by omega)
    have h3 := base64Index_base64Char (b % 16 * 4) (by omega)
    simp only [base64Encode, base64DecodeQuanta, h1.1, h2.1, h3.1, h3.2.1, and_true, and_false,
      if_true, if_false]
    simp only [Option.some.injEq, List.cons.injEq, and_true]
    omega
  | case4 a b c rest ih =>
    have ha : a < 256 := hb a (by simp)
    have hb2 : b < 256 := hb b (by simp)
    have hc2 : c < 256 := hb c (by simp)
    have h1 := base64Index_base64Char (a / 4) (by omega)
    have h2 := base64Index_base64Char (a % 4 * 16 + b / 16) (by omega)
    have h3 := base64Index_base64Char (b % 16 * 4 + c / 64) (by omega)
    have h4 := base64Index_base64Char (c % 64) (by omega)
    have ih2 := ih (fun x hx => hb x (by simp [hx]))
    simp only [base64Encode, base64DecodeQuanta, h1.1, h2.1, h3.1, h4.1, h3.2.1, h4.2.1, ih2,
      and_false, if_false]
    simp only [Option.some.injEq, List.cons.injEq, and_true]
    omega

theorem base64Decode_base64Encode (bs : Bytes) (hb : ∀ b ∈ bs, b < 256) :
    base64Decode (base64Encode bs) = Except.ok bs := by
  unfold base64Decode
  rw [base64Encode_no_newline bs hb, base64DecodeQuanta_base64Encode bs hb]

/-! ### Zeroing of secrets -/

theorem zeroSlice_range (b : Bytes) (n : Nat) (hn : n ≤ b.length) :
    (List.range n).foldl (fun b i => b.set i 0) b = List.replicate n 0 ++ b.drop n := by
  induction n with
  | zero => simp
  | succ n ih =>
    have hlt : n < b.length := by omega
    rw [List.range_succ, List.foldl_append, ih (by omega)]
    simp only [List.foldl_cons, List.foldl_nil]
    rw [List.set_append_right _ _ (by simp), List.length_replicate, Nat.sub_self,
      List.drop_eq_getElem_cons hlt, List.set_cons_zero, List.replicate_succ',
      List.append_assoc]
    rfl

theorem zeroSlice_eq (b : Bytes) : zeroSlice b = List.replicate b.length 0 := by
  unfold zeroSlice
  rw [zeroSlice_range b b.length (Nat.le_refl _)]
  simp

theorem tracked_init : State.init.tracked [] := by
  intro a c h
  simp [State.init] at h

theorem tracked_emit (s : State) (live : List Nat) (e : Event)
    (he : ∀ a c, e ≠ Event.secret a c) (h : s.tracked live) : (s.emit e).tracked live := by
  intro a c hm
  simp only [State.emit, List.mem_append, List.mem_singleton] at hm
  rcases hm with hm | hm
  · exact h a c hm
  · exact absurd hm.symm (he a c)

theorem tracked_alloc (s : State) (live : List Nat) (b : Bytes) (h : s.tracked live) :
    (s.alloc b).1.tracked ((s.alloc b).2 :: live) := by
  intro a c hm
  simp only [State.alloc, List.mem_append, List.mem_singleton] at hm
  rcases hm with hm | hm
  · obtain ⟨b0, hb0, hlen, hz⟩ := h a c hm
    have hlt : a < s.heap.length := by
      by_contra hge
      rw [List.getElem?_eq_none (by omega)] at hb0
      exact Option.noConfusion hb0
    refine ⟨b0, ?_, hlen, ?_⟩
    · simp only [State.alloc]
      rw [List.getElem?_append_left hlt]
      exact hb0
    · intro hn
      exact hz (fun hin => hn (List.mem_cons_of_mem _ hin))
  · injection hm with ha hc
    subst ha hc
    refine ⟨c, ?_, rfl, ?_⟩
    · simp [State.alloc]
    · intro hn
      exact absurd (List.mem_cons_self _ _) hn

theorem tracked_zeroBytes (s : State) (live : List Nat) (x : Nat) (h : s.tracked (x :: live)) :
    (zeroBytes s x).tracked live := by
  intro a c hm
  obtain ⟨b0, hb0, hlen, hz⟩ := h a c hm
  have hlt : a < s.heap.length := by
    by_contra hge
    rw [List.getElem?_eq_none (by omega)] at hb0
    exact Option.noConfusion hb0
  by_cases hax : a = x
  · subst hax
    refine ⟨zeroSlice (s.load a), ?_, ?_, ?_⟩
    · simp only [zeroBytes]
      rw [List.getElem?_set_self hlt]
    · have hl : s.load a = b0 := by
        simp only [State.load, List.getD_eq_getElem?_getD, hb0, Option.getD_some]
      rw [hl, zeroSlice_eq, List.length_replicate, hlen]
    · intro _
      have hl : s.load a = b0 := by
        simp only [State.load, List.getD_eq_getElem?_getD, hb0, Option.getD_some]
      rw [hl, zeroSlice_eq, hlen]
  · refine ⟨b0, ?_, hlen, ?_⟩
    · simp only [zeroBytes]
      rw [List.getElem?_set_ne (fun hxa => hax hxa.symm)]
      exact hb0
    · intro hn
      exact hz (fun hin => by
        rcases List.mem_cons.mp hin with h1 | h1
        · exact hax h1
        · exact hn h1)

theorem tracked_leave (defers : List Nat) (s : State) (r : Option String)
    (h : s.tracked defers) : (leave defers s r).1.tracked [] := by
  unfold leave
  induction defers generalizing s with
  | nil => exact h
  | cons d ds ih => exact ih (zeroBytes s d) (tracked_zeroBytes s ds d h)

theorem wiped_of_tracked_nil (s : State) (h : s.tracked []) : s.wiped none := by
  intro a c hm _
  obtain ⟨b0, hb0, -, hz⟩ := h a c hm
  rw [hb0, hz (List.not_mem_nil a)]

theorem wiped_of_tracked_single (s : State) (x : Nat) (h : s.tracked [x]) :
    s.wiped (some x) := by
  intro a c hm hne
  obtain ⟨b0, hb0, -, hz⟩ := h a c hm
  rw [hb0, hz (fun hin => hne (by rw [List.mem_singleton.mp hin]))]

theorem tracked_mono (s : State) (live live2 : List Nat) (hsub : ∀ x ∈ live, x ∈ live2)
    (h : s.tracked live) : s.tracked live2 := by
  intro a c hm
  obtain ⟨b0, hb0, hlen, hz⟩ := h a c hm
  exact ⟨b0, hb0, hlen, fun hn => hz (fun hin => hn (hsub a hin))⟩

theorem tracked_readPassword (w : World) (n : Nat) (s : State) (live : List Nat)
    (h : s.tracked live) :
    (readPassword w n s).1.tracked ((handedBack (readPassword w n s).2).toList ++ live) := by
  unfold readPassword
  cases w.terminal n with
  | error err => exact h
  | ok b => exact tracked_alloc s live b h

theorem tracked_getPassphrase (w : World) (prompt : String) (s : State) (live : List Nat)
    (h : s.tracked live) :
    (getPassphrase w prompt s).1.tracked
      ((handedBack (getPassphrase w prompt s).2).toList ++ live) := by
  have he := tracked_emit s live (Event.askPassphrase prompt) (by intro a c; simp) h
  unfold getPassphrase
  by_cases henv : w.getenvPassphrase ≠ []
  · rw [if_pos henv]
    exact tracked_alloc _ live _ he
  · rw [if_neg henv]
    have hr := tracked_readPassword w 0 _ live he
    split
    · rename_i s1 err heq
      rw [heq] at hr
      exact hr
    · rename_i s1 a heq
      rw [heq] at hr
      exact hr

theorem tracked_getPassphraseWithConfirm (w : World) (prompt confirmPrompt : String)
    (s : State) (live : List Nat) (h : s.tracked live) :
    (getPassphraseWithConfirm w prompt confirmPrompt s).1.tracked
      ((handedBack (getPassphraseWithConfirm w prompt confirmPrompt s).2).toList ++ live) := by
  have he := tracked_emit s live (Event.askPassphrase prompt) (by intro a c; simp) h
  unfold getPassphraseWithConfirm
  by_cases henv : w.getenvPassphrase ≠ []
  · rw [if_pos henv]
    exact tracked_alloc _ live _ he
  · rw [if_neg henv]
    have hr := tracked_readPassword w 0 _ live he
    split
    · rename_i s1 err heq
      rw [heq] at hr
      exact hr
    · rename_i s1 a heq
      rw [heq] at hr
      have hr1 : s1.tracked (a :: live) := hr
      have he2 := tracked_emit s1 (a :: live) (Event.askPassphrase confirmPrompt)
        (by intro a c; simp) hr1
      have hr2 := tracked_readPassword w 1 _ (a :: live) he2
      split
      · rename_i s2 err heq2
        rw [heq2] at hr2
        exact tracked_zeroBytes s2 live a hr2
      · rename_i s2 c heq2
        rw [heq2] at hr2
        have hr3 : s2.tracked (c :: a :: live) := hr2
        split
        · have hswap : s2.tracked (a :: c :: live) :=
            tracked_mono s2 _ _ (by intro x hx; simp at hx ⊢; tauto) hr3
          exact tracked_zeroBytes _ live c (tracked_zeroBytes s2 (c :: live) a hswap)
        · exact tracked_zeroBytes s2 (a :: live) c hr3

theorem tracked_deriveKey (w : World) (s : State) (passphrase salt : Bytes)
    (time memory threads keyLen : Nat) (live : List Nat) (h : s.tracked live) :
    (deriveKey w s passphrase salt time memory threads keyLen).1.tracked
      ((deriveKey w s passphrase salt time memory threads keyLen).2 :: live) := by
  unfold deriveKey
  exact tracked_alloc _ live _ (tracked_emit s live _ (by intro a c; simp) h)

theorem tracked_encrypt (opts : EncryptOptions) (w : World) (s : State) (h : s.tracked []) :
    (encrypt opts w s).1.tracked [] := by
  have hg := tracked_getPassphraseWithConfirm w "Enter passphrase: " "Confirm passphrase: " s [] h
  unfold encrypt
  split
  · rename_i s1 err heq
    rw [heq] at hg
    exact hg
  · rename_i s1 p heq
    rw [heq] at hg
    have hp : s1.tracked [p] := hg
    dsimp only
    split
    · exact tracked_leave _ _ _ hp
    · split
      · exact tracked_leave _ _ _ hp
      · rename_i salt hsalt
        have hk := tracked_deriveKey w s1 (s1.load p) salt opts.Argon2Time opts.Argon2Memory
          Argon2Threads Argon2KeyLen [p] hp
        repeat' split
        all_goals
          apply tracked_leave
          first
          | exact hk
          | exact tracked_emit _ _ _ (by intro a c; simp) hk
          | exact tracked_emit _ _ _ (by intro a c; simp)
              (tracked_emit _ _ _ (by intro a c; simp) hk)

theorem tracked_decrypt (w : World) (s : State) (h : s.tracked []) :
    (decrypt w s).1.tracked [] := by
  have hg := tracked_getPassphrase w "Enter passphrase: " s [] h
  unfold decrypt
  repeat' (first | split | dsimp only)
  all_goals
    first
    | exact h
    | (rw [show getPassphrase w "Enter passphrase: " s = _ from by assumption] at hg
       first
       | exact hg
       | (apply tracked_leave
          first
          | exact hg
          | exact tracked_deriveKey _ _ _ _ _ _ _ _ _ hg
          | exact tracked_emit _ _ _ (by intro a c; simp)
              (tracked_deriveKey _ _ _ _ _ _ _ _ _ hg)))

/-- C2: on every return path of `encrypt`, `decrypt` and `getPassphraseWithConfirm`
(whatever the environment answers, errors included), every secret buffer the call
obtained and does not hand back (passphrase, confirmation entry, Argon2 key) still has
its length and holds only zero bytes. -/
theorem secrets_zeroed_on_every_return (w : World) (opts : EncryptOptions)
    (prompt confirmPrompt : String) :
    (encrypt opts w State.init).1.wiped none ∧
    (decrypt w State.init).1.wiped none ∧
    (getPassphraseWithConfirm w prompt confirmPrompt State.init).1.wiped
      (handedBack (getPassphraseWithConfirm w prompt confirmPrompt State.init).2) := by
  refine ⟨wiped_of_tracked_nil _ (tracked_encrypt opts w _ tracked_init),
    wiped_of_tracked_nil _ (tracked_decrypt w _ tracked_init), ?_⟩
  have h := tracked_getPassphraseWithConfirm w prompt confirmPrompt State.init [] tracked_init
  cases hr : (getPassphraseWithConfirm w prompt confirmPrompt State.init).2 with
  | error err =>
    rw [hr] at h
    exact wiped_of_tracked_nil _ h
  | ok a =>
    rw [hr] at h
    exact wiped_of_tracked_single _ a h

/-- In the example run `encrypt` obtains the passphrase and the key, and both
buffers end as zeros. -/
theorem encrypt_example_secrets :
    (encrypt defaultOptions
      (exampleWorld ["jfcrypt", "--encrypt"] [112, 119] exampleSalt exampleHeader [])
      State.init).1.heap = [[0, 0], List.replicate 32 0] ∧
    Event.secret 0 [112, 119] ∈
      (encrypt defaultOptions
        (exampleWorld ["jfcrypt", "--encrypt"] [112, 119] exampleSalt exampleHeader [])
        State.init).1.trace ∧
    Event.secret 1 (toyKDF [112, 119] exampleSalt 3 1048576 4 32) ∈
      (encrypt defaultOptions
        (exampleWorld ["jfcrypt", "--encrypt"] [112, 119] exampleSalt exampleHeader [])
        State.init).1.trace := by
  decide

/-! ### Traces -/

theorem zeroBytes_trace (s : State) (a : Nat) : (zeroBytes s a).trace = s.trace := rfl

theorem leave_trace (defers : List Nat) (s : State) (r : Option String) :
    (leave defers s r).1.trace = s.trace := by
  unfold leave
  induction defers generalizing s with
  | nil => rfl
  | cons d ds ih => exact (ih (zeroBytes s d)).trans (zeroBytes_trace s d)

theorem leave_snd (defers : List Nat) (s : State) (r : Option String) :
    (leave defers s r).2 = r := rfl

theorem emit_trace (s : State) (e : Event) : (s.emit e).trace = s.trace ++ [e] := rfl

theorem alloc_trace (s : State) (b : Bytes) :
    (s.alloc b).1.trace = s.trace ++ [Event.secret s.heap.length b] := rfl

theorem alloc_load (s : State) (b : Bytes) : (s.alloc b).1.load (s.alloc b).2 = b := by
  simp [State.alloc, State.load, List.getD_eq_getElem?_getD]

theorem deriveKey_trace (w : World) (s : State) (passphrase salt : Bytes)
    (time memory threads keyLen : Nat) :
    (deriveKey w s passphrase salt time memory threads keyLen).1.trace =
      s.trace ++ [Event.argon2 ⟨passphrase, salt, time, memory, threads, keyLen⟩,
        Event.secret s.heap.length (w.argon2IDKey passphrase salt time memory threads keyLen)] := by
  simp [deriveKey, State.alloc, State.emit]

theorem deriveKey_load (w : World) (s : State) (passphrase salt : Bytes)
    (time memory threads keyLen : Nat) :
    (deriveKey w s passphrase salt time memory threads keyLen).1.load
        (deriveKey w s passphrase salt time memory threads keyLen).2 =
      w.argon2IDKey passphrase salt time memory threads keyLen := by
  unfold deriveKey
  exact alloc_load _ _

/-- The events a passphrase prompt can add. -/
theorem getPassphrase_trace (w : World) (prompt : String) (s : State) (e : Event)
    (h1 : ∀ p, e ≠ Event.askPassphrase p) (h2 : ∀ a c, e ≠ Event.secret a c) :
    e ∈ (getPassphrase w prompt s).1.trace ↔ e ∈ s.trace := by
  unfold getPassphrase readPassword
  by_cases henv : w.getenvPassphrase ≠ []
  · rw [if_pos henv]
    simp [State.alloc, State.emit, h1, h2]
  · rw [if_neg henv]
    cases w.terminal 0 <;> simp [State.alloc, State.emit, h1, h2]

/-! ### decrypt: the header checks -/

/-- C3: when the header `decrypt` parsed has an algorithm other than
"AES256-GCM-HKDF-1MB" or a KDF algorithm other than "argon2id", `decrypt` returns an
error and its final state is the initial one: no passphrase was asked for, no secret
was obtained and `deriveKey` was not called. -/
theorem decrypt_rejects_unsupported_algorithm (w : World) (headerLine rest : Bytes)
    (header : SealedHeader)
    (hread : readBytes w.stdin 10 = Except.ok (headerLine, rest))
    (hparse : w.jsonUnmarshal headerLine = Except.ok header)
    (hbad : header.Algorithm ≠ "AES256-GCM-HKDF-1MB" ∨ header.KDF.Algorithm ≠ "argon2id") :
    (∃ err, (decrypt w State.init).2 = some err) ∧
    (decrypt w State.init).1 = State.init ∧
    (∀ p, Event.askPassphrase p ∉ (decrypt w State.init).1.trace) ∧
    (∀ a c, Event.secret a c ∉ (decrypt w State.init).1.trace) ∧
    (∀ c, Event.argon2 c ∉ (decrypt w State.init).1.trace) := by
  have hd : ∃ err, decrypt w State.init = (State.init, some err) := by
    unfold decrypt
    simp only [hread, hparse]
    by_cases hv : header.Version = ""
    · rw [if_pos hv]
      exact ⟨_, rfl⟩
    · rw [if_neg hv]
      by_cases ha : header.Algorithm ≠ "AES256-GCM-HKDF-1MB"
      · rw [if_pos ha]
        exact ⟨_, rfl⟩
      · rw [if_neg ha]
        have hk : header.KDF.Algorithm ≠ "argon2id" := hbad.resolve_left ha
        rw [if_pos hk]
        exact ⟨_, rfl⟩
  obtain ⟨err, he⟩ := hd
  rw [he]
  refine ⟨⟨err, rfl⟩, rfl, ?_, ?_, ?_⟩ <;> intros <;> simp [State.init]

/-- Witness for C3: a header naming the algorithm "ROT13". -/
theorem decrypt_rejects_unsupported_algorithm_witness :
    (decrypt (exampleWorld ["jfcrypt", "--decrypt"] [112, 119] exampleSalt
      { exampleHeader with Algorithm := "ROT13" } [1, 2, 3]) State.init).1 = State.init :=
  (decrypt_rejects_unsupported_algorithm
    (exampleWorld ["jfcrypt", "--decrypt"] [112, 119] exampleSalt
      { exampleHeader with Algorithm := "ROT13" } [1, 2, 3])
    (marshalHeader { exampleHeader with Algorithm := "ROT13" } ++ [10]) [1, 2, 3]
    { exampleHeader with Algorithm := "ROT13" } (by decide) (by decide)
    (Or.inl (by decide))).2.1

theorem decrypt_reader_events (w : World) (headerLine rest : Bytes) (header : SealedHeader)
    (hread : readBytes w.stdin 10 = Except.ok (headerLine, rest))
    (hparse : w.jsonUnmarshal headerLine = Except.ok header) (k : ReaderKind)
    (hmem : Event.inputReader k ∈ (decrypt w State.init).1.trace) :
    k = if (if header.Format = "" then "base64" else header.Format) = "base64"
      then ReaderKind.base64Trimmed else ReaderKind.raw := by
  have hinit : Event.inputReader k ∉
      (getPassphrase w "Enter passphrase: " State.init).1.trace := by
    rw [getPassphrase_trace w _ _ _ (by intro p; simp) (by intro a c; simp)]
    simp [State.init]
  unfold decrypt at hmem
  simp only [hread, hparse] at hmem
  revert hmem
  repeat' (first | split | dsimp only)
  all_goals
    intro hmem
    try simp only [leave_trace, emit_trace, deriveKey_trace, List.mem_append, List.mem_cons,
      List.mem_singleton, List.not_mem_nil, or_false, reduceCtorEq, false_or,
      Event.inputReader.injEq] at hmem
    first
    | (exfalso
       simp [State.init] at hmem <;> done)
    | (exfalso
       rw [show getPassphrase w "Enter passphrase: " State.init = _ from by assumption] at hinit
       exact hinit hmem)
    | (rcases hmem with hmem | hmem
       · exfalso
         rw [show getPassphrase w "Enter passphrase: " State.init = _ from by assumption] at hinit
         exact hinit hmem
       · subst hmem
         simp_all)

theorem decrypt_success_reader (w : World) (h : (decrypt w State.init).2 = none) :
    ∃ k, Event.inputReader k ∈ (decrypt w State.init).1.trace := by
  unfold decrypt at h ⊢
  revert h
  repeat' (first | split | dsimp only)
  all_goals
    intro h
    first
    | (exfalso
       simp [leave_snd] at h <;> done)
    | (constructor
       simp only [leave_trace, emit_trace]
       exact List.mem_append_right _ (List.mem_singleton_self _))

theorem decrypt_trace_reader_built (w : World) (header : SealedHeader)
    (salt headerLine rest : Bytes) (sd : State) (ad : Nat)
    (hread : readBytes w.stdin 10 = Except.ok (headerLine, rest))
    (hparse : w.jsonUnmarshal headerLine = Except.ok header)
    (hv : header.Version ≠ "") (ha : header.Algorithm = "AES256-GCM-HKDF-1MB")
    (hk : header.KDF.Algorithm = "argon2id")
    (hf : header.Format = "" ∨ header.Format = "binary" ∨ header.Format = "base64")
    (hs : base64Decode header.KDF.Salt.toList = Except.ok salt)
    (hpd : getPassphrase w "Enter passphrase: " State.init = (sd, Except.ok ad))
    (hne : sd.load ad ≠ [])
    (hks : createKeysetFromKey w (w.argon2IDKey (sd.load ad) salt header.KDF.Time
      header.KDF.Memory header.KDF.Threads header.KDF.KeyLen) = none)
    (haead : w.streamingaeadNew = none) :
    (decrypt w State.init).1.trace =
      sd.trace ++ [Event.argon2 ⟨sd.load ad, salt, header.KDF.Time, header.KDF.Memory,
          header.KDF.Threads, header.KDF.KeyLen⟩,
        Event.secret sd.heap.length (w.argon2IDKey (sd.load ad) salt header.KDF.Time
          header.KDF.Memory header.KDF.Threads header.KDF.KeyLen),
        Event.inputReader
          (if (if header.Format = "" then "base64" else header.Format) = "base64"
            then ReaderKind.base64Trimmed else ReaderKind.raw)] := by
  have hlen : ¬ (sd.load ad).length = 0 := fun h0 => hne (List.length_eq_zero.mp h0)
  have hfmt : ¬ ((if header.Format = "" then "base64" else header.Format) ≠ "binary" ∧
      (if header.Format = "" then "base64" else header.Format) ≠ "base64") := by
    rcases hf with h | h | h <;> simp [h]
  unfold decrypt
  simp only [hread, hparse]
  rw [if_neg hv, if_neg (by simp [ha]), if_neg (by simp [hk]), if_neg hfmt]
  simp only [hs, hpd]
  rw [if_neg hlen]
  simp only [deriveKey_load, hks, haead]
  repeat' (first | split | dsimp only)
  all_goals
    simp only [leave_trace, emit_trace, deriveKey_trace]
    simp_all

/-- C6: for a header that passes the version, algorithm and KDF checks, `decrypt`
with an absent or empty format behaves exactly as with "base64": the run equals the run
on the same header with format "base64", and the only input reader it builds is the
newline-trimming base64 decoder; with "binary" the only input reader is the raw one;
every other format string gives the unsupported-format error with nothing else done.
A run that returns no error has built its input reader. Whenever the steps before the
reader succeed (the salt decodes, a non-empty passphrase is obtained, the keyset and the
streaming primitive are created), the reader is built: the events of the run are those
of the passphrase prompt, the `deriveKey` call, the key, and then the newline-trimming
base64 reader for an empty format or "base64", the raw reader for "binary". -/
theorem decrypt_format (w : World) (headerLine rest : Bytes) (header : SealedHeader)
    (hread : readBytes w.stdin 10 = Except.ok (headerLine, rest))
    (hparse : w.jsonUnmarshal headerLine = Except.ok header)
    (hv : header.Version ≠ "") (ha : header.Algorithm = "AES256-GCM-HKDF-1MB")
    (hk : header.KDF.Algorithm = "argon2id") :
    (header.Format = "" →
      decrypt w State.init =
        decrypt { w with jsonUnmarshal := fun _ => Except.ok { header with Format := "base64" } }
          State.init) ∧
    (header.Format = "" ∨ header.Format = "base64" →
      ∀ k, Event.inputReader k ∈ (decrypt w State.init).1.trace →
        k = ReaderKind.base64Trimmed) ∧
    (header.Format = "binary" →
      ∀ k, Event.inputReader k ∈ (decrypt w State.init).1.trace → k = ReaderKind.raw) ∧
    (header.Format ≠ "" → header.Format ≠ "binary" → header.Format ≠ "base64" →
      decrypt w State.init = (State.init, some ("unsupported format: " ++ header.Format))) ∧
    ((decrypt w State.init).2 = none →
      ∃ k, Event.inputReader k ∈ (decrypt w State.init).1.trace) ∧
    (∀ salt sd ad,
      base64Decode header.KDF.Salt.toList = Except.ok salt →
      getPassphrase w "Enter passphrase: " State.init = (sd, Except.ok ad) →
      sd.load ad ≠ [] →
      createKeysetFromKey w (w.argon2IDKey (sd.load ad) salt header.KDF.Time
        header.KDF.Memory header.KDF.Threads header.KDF.KeyLen) = none →
      w.streamingaeadNew = none →
      (header.Format = "" ∨ header.Format = "base64" →
        (decrypt w State.init).1.trace =
          sd.trace ++ [Event.argon2 ⟨sd.load ad, salt, header.KDF.Time, header.KDF.Memory,
              header.KDF.Threads, header.KDF.KeyLen⟩,
            Event.secret sd.heap.length (w.argon2IDKey (sd.load ad) salt header.KDF.Time
              header.KDF.Memory header.KDF.Threads header.KDF.KeyLen),
            Event.inputReader ReaderKind.base64Trimmed]) ∧
      (header.Format = "binary" →
        (decrypt w State.init).1.trace =
          sd.trace ++ [Event.argon2 ⟨sd.load ad, salt, header.KDF.Time, header.KDF.Memory,
              header.KDF.Threads, header.KDF.KeyLen⟩,
            Event.secret sd.heap.length (w.argon2IDKey (sd.load ad) salt header.KDF.Time
              header.KDF.Memory header.KDF.Threads header.KDF.KeyLen),
            Event.inputReader ReaderKind.raw])) := by
  refine ⟨?_, ?_, ?_, ?_, decrypt_success_reader w, ?_⟩
  rotate_left 4
  · intro salt sd ad hs hpd hne hks haead
    constructor
    · intro hf
      rw [decrypt_trace_reader_built w header salt headerLine rest sd ad hread hparse hv ha hk
        (by rcases hf with h | h <;> simp [h]) hs hpd hne hks haead]
      rcases hf with h | h <;> simp [h]
    · intro hf
      rw [decrypt_trace_reader_built w header salt headerLine rest sd ad hread hparse hv ha hk
        (by simp [hf]) hs hpd hne hks haead]
      simp [hf]
  · intro hf
    have hg : ∀ p s, getPassphrase
        { w with jsonUnmarshal := fun _ => Except.ok { header with Format := "base64" } } p s =
        getPassphrase w p s := fun _ _ => rfl
    have hd : ∀ s p x t m th kl, deriveKey
        { w with jsonUnmarshal := fun _ => Except.ok { header with Format := "base64" } }
          s p x t m th kl = deriveKey w s p x t m th kl := fun _ _ _ _ _ _ _ => rfl
    have hc : ∀ key, createKeysetFromKey
        { w with jsonUnmarshal := fun _ => Except.ok { header with Format := "base64" } } key =
        createKeysetFromKey w key := fun _ => rfl
    unfold decrypt
    simp only [hg, hd, hc]
    simp [hread, hparse, hv, ha, hk, hf]
  · intro hf k hmem
    have := decrypt_reader_events w headerLine rest header hread hparse k hmem
    rcases hf with hf | hf <;> simpa [hf] using this
  · intro hf k hmem
    have := decrypt_reader_events w headerLine rest header hread hparse k hmem
    simpa [hf] using this
  · intro h1 h2 h3
    unfold decrypt
    simp only [hread, hparse, hv, ha, hk, h1]
    simp [h2, h3]

/-- Witness for C6: a header without format, read from standard input; the run
equals the run with format "base64", and it builds the newline-trimming base64
reader after the passphrase and the key. -/
theorem decrypt_format_witness :
    decrypt (exampleWorld ["jfcrypt", "--decrypt"] [112, 119] exampleSalt
        { exampleHeader with Format := "" } [1, 2, 3]) State.init =
      decrypt { exampleWorld ["jfcrypt", "--decrypt"] [112, 119] exampleSalt
          { exampleHeader with Format := "" } [1, 2, 3] with
        jsonUnmarshal := fun _ =>
          Except.ok { ({ exampleHeader with Format := "" } : SealedHeader) with
            Format := "base64" } } State.init ∧
    (decrypt (exampleWorld ["jfcrypt", "--decrypt"] [112, 119] exampleSalt
        { exampleHeader with Format := "" } [1, 2, 3]) State.init).1.trace =
      [Event.askPassphrase "Enter passphrase: ", Event.secret 0 [112, 119]] ++
        [Event.argon2 ⟨[112, 119], exampleSalt, 3, 1048576, 4, 32⟩,
          Event.secret 1 (toyKDF [112, 119] exampleSalt 3 1048576 4 32),
          Event.inputReader ReaderKind.base64Trimmed] :=
  have h := decrypt_format
    (exampleWorld ["jfcrypt", "--decrypt"] [112, 119] exampleSalt
      { exampleHeader with Format := "" } [1, 2, 3])
    (marshalHeader { exampleHeader with Format := "" } ++ [10]) [1, 2, 3]
    { exampleHeader with Format := "" } (by decide) (by decide) (by decide) (by decide)
    (by decide)
  ⟨h.1 (by decide),
    (h.2.2.2.2.2 exampleSalt
      ⟨[[112, 119]], [Event.askPassphrase "Enter passphrase: ", Event.secret 0 [112, 119]]⟩ 0
      (by decide) (by decide) (by decide) (by decide) (by decide)).1 (Or.inl (by decide))⟩

/-- C9, the defect: the header of the example run with version "2.0.0", which is not
this program's `Version`, is not rejected by the check commented "Validate version
compatibility": `decrypt` asks for the passphrase and calls `deriveKey`, and the whole
run is the run on the same header with version "1.0.0". -/
theorem decrypt_accepts_unknown_version :
    (({ exampleHeader with Version := "2.0.0" } : SealedHeader).Version ≠ Version) ∧
    Event.askPassphrase "Enter passphrase: " ∈
      (decrypt (exampleWorld ["jfcrypt", "--decrypt"] [112, 119] exampleSalt
        { exampleHeader with Version := "2.0.0" } [1, 2, 3]) State.init).1.trace ∧
    Event.argon2 ⟨[112, 119], exampleSalt, 3, 1048576, 4, 32⟩ ∈
      (decrypt (exampleWorld ["jfcrypt", "--decrypt"] [112, 119] exampleSalt
        { exampleHeader with Version := "2.0.0" } [1, 2, 3]) State.init).1.trace ∧
    decrypt (exampleWorld ["jfcrypt", "--decrypt"] [112, 119] exampleSalt
        { exampleHeader with Version := "2.0.0" } [1, 2, 3]) State.init =
      decrypt (exampleWorld ["jfcrypt", "--decrypt"] [112, 119] exampleSalt
        exampleHeader [1, 2, 3]) State.init := by
  decide

/-- The version is never compared with `Version`: for every header with a non-empty
version the run of `decrypt` is the run on the same header with version "1.0.0". -/
theorem decrypt_version_not_compared (w : World) (headerLine rest : Bytes)
    (header : SealedHeader)
    (hread : readBytes w.stdin 10 = Except.ok (headerLine, rest))
    (hparse : w.jsonUnmarshal headerLine = Except.ok header)
    (hv : header.Version ≠ "") :
    decrypt w State.init =
      decrypt { w with jsonUnmarshal := fun _ => Except.ok { header with Version := Version } }
        State.init := by
  have hg : ∀ p s, getPassphrase
      { w with jsonUnmarshal := fun _ => Except.ok { header with Version := Version } } p s =
      getPassphrase w p s := fun _ _ => rfl
  have hd : ∀ s p x t m th kl, deriveKey
      { w with jsonUnmarshal := fun _ => Except.ok { header with Version := Version } }
        s p x t m th kl = deriveKey w s p x t m th kl := fun _ _ _ _ _ _ _ => rfl
  have hc : ∀ key, createKeysetFromKey
      { w with jsonUnmarshal := fun _ => Except.ok { header with Version := Version } } key =
      createKeysetFromKey w key := fun _ => rfl
  have h1 : Version ≠ "" := by decide
  unfold decrypt
  simp only [hg, hd, hc]
  simp [hread, hparse, hv, h1]

/-- The version guard: when the header `decrypt` parsed has no version (the field is
absent or empty), `decrypt` returns the missing-version error and its final state is
the initial one: the passphrase was not asked for. -/
theorem decrypt_rejects_missing_version (w : World) (headerLine rest : Bytes)
    (header : SealedHeader)
    (hread : readBytes w.stdin 10 = Except.ok (headerLine, rest))
    (hparse : w.jsonUnmarshal headerLine = Except.ok header)
    (hv : header.Version = "") :
    decrypt w State.init = (State.init, some "invalid jfcrypt file: missing version") ∧
    (∀ p, Event.askPassphrase p ∉ (decrypt w State.init).1.trace) := by
  have hd : decrypt w State.init =
      (State.init, some "invalid jfcrypt file: missing version") := by
    unfold decrypt
    simp only [hread, hparse]
    rw [if_pos hv]
  rw [hd]
  exact ⟨rfl, fun p hp => by simp [State.init] at hp⟩

/-- An instance of the version guard: a header whose version is empty. -/
theorem decrypt_rejects_missing_version_witness :
    decrypt (exampleWorld ["jfcrypt", "--decrypt"] [112, 119] exampleSalt
        { exampleHeader with Version := "" } [1, 2, 3]) State.init =
      (State.init, some "invalid jfcrypt file: missing version") :=
  (decrypt_rejects_missing_version
    (exampleWorld ["jfcrypt", "--decrypt"] [112, 119] exampleSalt
      { exampleHeader with Version := "" } [1, 2, 3])
    (marshalHeader { exampleHeader with Version := "" } ++ [10]) [1, 2, 3]
    { exampleHeader with Version := "" } (by decide) (by decide) (by decide)).1

/-- The text of a header line with time 0, the other fields as `encrypt` writes
them. -/
theorem zeroTimeHeader_text :
    String.mk ((marshalHeader { exampleHeader with
      KDF := { exampleHeader.KDF with Time := 0 } }).map Char.ofNat) =
    "\x7b\"version\":\"1.0.0\",\"algorithm\":\"AES256-GCM-HKDF-1MB\",\"format\":\"binary\"," ++
    "\"kdf\":\x7b\"algorithm\":\"argon2id\",\"salt\":\"AQIDBAUGBwgJCgsMDQ4P/w==\"," ++
    "\"time\":0,\"memory\":1048576,\"threads\":4,\"keylen\":32\x7d\x7d" := by
  decide

/-- C4, the defect: on a header with time 0, `decrypt` performs no check of the cost
parameters and calls `deriveKey` with time 0; no error has been returned before that
call. -/
theorem decrypt_derives_with_zero_time :
    Event.argon2 ⟨[112, 119], exampleSalt, 0, 1048576, 4, 32⟩ ∈
      (decrypt (exampleWorld ["jfcrypt", "--decrypt"] [112, 119] exampleSalt
        { exampleHeader with KDF := { exampleHeader.KDF with Time := 0 } }
        [1, 2, 3]) State.init).1.trace := by
  decide

/-- The header path checks memory against the thread count no more than it checks
the time: with memory 0 and four threads `deriveKey` is called as well. -/
theorem decrypt_derives_with_zero_memory :
    Event.argon2 ⟨[112, 119], exampleSalt, 3, 0, 4, 32⟩ ∈
      (decrypt (exampleWorld ["jfcrypt", "--decrypt"] [112, 119] exampleSalt
        { exampleHeader with KDF := { exampleHeader.KDF with Memory := 0 } }
        [1, 2, 3]) State.init).1.trace := by
  decide

/-! ### run -/

theorem unknown_command_starts (cmd : String) :
    ("unknown command: " ++ cmd).data.take 3 = ['u', 'n', 'k'] := rfl

theorem encrypt_error_starts (opts : EncryptOptions) (w : World) (s : State) (e : String)
    (h : (encrypt opts w s).2 = some e) : e.data.take 3 ≠ ['u', 'n', 'k'] := by
  unfold encrypt at h
  revert h
  repeat' (first | split | dsimp only)
  all_goals
    intro h
    simp only [leave_snd, Option.some.injEq, reduceCtorEq] at h <;>
    · subst h
      simp [String.data_append]

theorem decrypt_error_starts (w : World) (s : State) (e : String)
    (h : (decrypt w s).2 = some e) : e.data.take 3 ≠ ['u', 'n', 'k'] := by
  unfold decrypt at h
  revert h
  repeat' (first | split | dsimp only)
  all_goals
    intro h
    simp only [leave_snd, Option.some.injEq, reduceCtorEq] at h <;>
    · subst h
      simp [String.data_append]

/-- Counterexample to C8 as stated: with the bare word `help` or `version` as first
argument `run` returns the unknown-command error, and with `help` followed by an
invalid option it returns the option's error without printing the usage text. -/
theorem run_bare_command_word_unknown :
    run (exampleWorld ["jfcrypt", "help"] [112, 119] exampleSalt exampleHeader []) State.init =
      (State.init.emit Event.usage, some "unknown command: help") ∧
    run (exampleWorld ["jfcrypt", "version"] [112, 119] exampleSalt exampleHeader [])
        State.init =
      (State.init.emit Event.usage, some "unknown command: version") ∧
    run (exampleWorld ["jfcrypt", "help", "--memory=x"] [112, 119] exampleSalt exampleHeader [])
        State.init =
      (State.init, some "invalid memory value: invalid syntax") := by
  decide

theorem run_of_options (w : World) (s : State) (prog cmd : String) (rest : List String)
    (opts : EncryptOptions) (hargs : w.args = prog :: cmd :: rest)
    (hopts : runOptions rest defaultOptions = Except.ok opts) :
    run w s =
      if cmd = "--encrypt" ∨ cmd = "-e" then encrypt opts w s
      else if cmd = "--decrypt" ∨ cmd = "-d" then decrypt w s
      else if cmd = "--help" ∨ cmd = "-h" then (s.emit Event.usage, none)
      else if cmd = "--version" ∨ cmd = "-v" then (s.emit Event.version, none)
      else (s.emit Event.usage, some ("unknown command: " ++ cmd)) := by
  have hlen : ¬ w.args.length < 2 := by rw [hargs]; simp
  have hcmd : w.args.getD 1 "" = cmd := by rw [hargs]; rfl
  have hrest : w.args.drop 2 = rest := by rw [hargs]; rfl
  unfold run
  rw [if_neg hlen]
  simp only [hcmd, hrest, hopts]

theorem run_of_option_error (w : World) (s : State) (prog cmd : String) (rest : List String)
    (err : String) (hargs : w.args = prog :: cmd :: rest)
    (hopts : runOptions rest defaultOptions = Except.error err) :
    run w s = (s, some err) := by
  have hlen : ¬ w.args.length < 2 := by rw [hargs]; simp
  have hrest : w.args.drop 2 = rest := by rw [hargs]; rfl
  unfold run
  rw [if_neg hlen]
  simp only [hrest, hopts]

/-- C8, amended: when the first argument is `--encrypt` or `-e`, `--decrypt` or `-d`,
`--help` or `-h`, `--version` or `-v` and the later arguments pass the option loop,
`run` returns what `encrypt` (with the parsed options) or `decrypt` returns, or prints
the usage text or the version line and returns no error; in none of these cases is the
returned error the unknown-command error. When an option is invalid `run` returns the
option's error and dispatches nothing. -/
theorem run_dispatch (w : World) (s : State) (prog cmd : String) (rest : List String)
    (hargs : w.args = prog :: cmd :: rest) :
    (∀ opts, runOptions rest defaultOptions = Except.ok opts →
      (cmd = "--encrypt" ∨ cmd = "-e" → run w s = encrypt opts w s) ∧
      (cmd = "--decrypt" ∨ cmd = "-d" → run w s = decrypt w s) ∧
      (cmd = "--help" ∨ cmd = "-h" → run w s = (s.emit Event.usage, none)) ∧
      (cmd = "--version" ∨ cmd = "-v" → run w s = (s.emit Event.version, none)) ∧
      (cmd ∈ ["--encrypt", "-e", "--decrypt", "-d", "--help", "-h", "--version", "-v"] →
        (run w s).2 ≠ some ("unknown command: " ++ cmd))) ∧
    (∀ err, runOptions rest defaultOptions = Except.error err → run w s = (s, some err)) := by
  constructor
  · intro opts hopts
    have hrun := run_of_options w s prog cmd rest opts hargs hopts
    have henc : cmd = "--encrypt" ∨ cmd = "-e" → run w s = encrypt opts w s := by
      intro h
      rw [hrun, if_pos h]
    have hdec : cmd = "--decrypt" ∨ cmd = "-d" → run w s = decrypt w s := by
      intro h
      rw [hrun, if_neg (by rcases h with h | h <;> subst h <;> decide), if_pos h]
    have hhelp : cmd = "--help" ∨ cmd = "-h" → run w s = (s.emit Event.usage, none) := by
      intro h
      rw [hrun, if_neg (by rcases h with h | h <;> subst h <;> decide),
        if_neg (by rcases h with h | h <;> subst h <;> decide), if_pos h]
    have hver : cmd = "--version" ∨ cmd = "-v" → run w s = (s.emit Event.version, none) := by
      intro h
      rw [hrun, if_neg (by rcases h with h | h <;> subst h <;> decide),
        if_neg (by rcases h with h | h <;> subst h <;> decide),
        if_neg (by rcases h with h | h <;> subst h <;> decide), if_pos h]
    refine ⟨henc, hdec, hhelp, hver, ?_⟩
    intro hmem hunk
    have hpre := unknown_command_starts cmd
    simp only [List.mem_cons, List.mem_singleton, List.not_mem_nil, or_false] at hmem
    rcases hmem with h | h | h | h | h | h | h | h
    · rw [henc (Or.inl h)] at hunk
      exact encrypt_error_starts opts w s _ hunk hpre
    · rw [henc (Or.inr h)] at hunk
      exact encrypt_error_starts opts w s _ hunk hpre
    · rw [hdec (Or.inl h)] at hunk
      exact decrypt_error_starts w s _ hunk hpre
    · rw [hdec (Or.inr h)] at hunk
      exact decrypt_error_starts w s _ hunk hpre
    · rw [hhelp (Or.inl h)] at hunk
      exact Option.noConfusion hunk
    · rw [hhelp (Or.inr h)] at hunk
      exact Option.noConfusion hunk
    · rw [hver (Or.inl h)] at hunk
      exact Option.noConfusion hunk
    · rw [hver (Or.inr h)] at hunk
      exact Option.noConfusion hunk
  · intro err herr
    exact run_of_option_error w s prog cmd rest err hargs herr

/-- Witness for C8, amended: `jfcrypt -h -b -m=64M -i=5` prints the usage text. -/
theorem run_dispatch_witness :
    run (exampleWorld ["jfcrypt", "-h", "-b", "-m=64M", "-i=5"] [112, 119] exampleSalt
        exampleHeader []) State.init = (State.init.emit Event.usage, none) :=
  ((run_dispatch
    (exampleWorld ["jfcrypt", "-h", "-b", "-m=64M", "-i=5"] [112, 119] exampleSalt
      exampleHeader []) State.init "jfcrypt" "-h" ["-b", "-m=64M", "-i=5"] rfl).1
    { UseBase64 := true, Argon2Memory := 65536, Argon2Time := 5 } (by decide)).2.2.1
    (Or.inr rfl)

/-! ### The header from encrypt to decrypt -/

theorem span_ne_delim (line rest : Bytes) (delim : Nat) (h : delim ∉ line) :
    (line ++ delim :: rest).span (fun b => b != delim) = (line, delim :: rest) := by
  induction line with
  | nil => simp [List.span, List.span.loop]
  | cons b bs ih =>
    have hb : (b != delim) = true := by
      simp only [bne_iff_ne, ne_eq]
      intro hbd
      exact h (hbd ▸ List.mem_cons_self _ _)
    have ih2 := ih (fun hin => h (List.mem_cons_of_mem _ hin))
    rw [List.span_eq_take_drop] at ih2 ⊢
    simp only [List.cons_append, List.takeWhile_cons, List.dropWhile_cons, hb, if_true]
    simp only [Prod.mk.injEq] at ih2 ⊢
    exact ⟨by rw [ih2.1], ih2.2⟩

theorem readBytes_line (line rest : Bytes) (h : 10 ∉ line) :
    readBytes (line ++ [10] ++ rest) 10 = Except.ok (line ++ [10], rest) := by
  unfold readBytes
  rw [List.append_assoc, List.singleton_append, span_ne_delim line rest 10 h]

theorem encrypt_trace_of_header_written (we : World) (opts : EncryptOptions)
    (passphrase salt line : Bytes) (se : State) (ae : Nat)
    (hpe : getPassphraseWithConfirm we "Enter passphrase: " "Confirm passphrase: " State.init =
      (se, Except.ok ae))
    (hle : se.load ae = passphrase) (hne : passphrase ≠ [])
    (hsalt : we.randRead SaltLen = Except.ok salt)
    (hks : createKeysetFromKey we (we.argon2IDKey passphrase salt opts.Argon2Time
      opts.Argon2Memory Argon2Threads Argon2KeyLen) = none)
    (haead : we.streamingaeadNew = none)
    (hm : we.jsonMarshal (encryptHeader opts salt) = Except.ok line)
    (hw : we.stdoutWrite 0 = none) :
    ∃ tail, (encrypt opts we State.init).1.trace =
      se.trace ++ [Event.argon2 ⟨passphrase, salt, opts.Argon2Time, opts.Argon2Memory,
          Argon2Threads, Argon2KeyLen⟩,
        Event.secret se.heap.length (we.argon2IDKey passphrase salt opts.Argon2Time
          opts.Argon2Memory Argon2Threads Argon2KeyLen),
        Event.stdout line] ++ tail ∧
      ∀ e ∈ tail, e = Event.stdout [10] := by
  have hlen : ¬ (se.load ae).length = 0 := by
    rw [hle]
    intro h0
    exact hne (List.length_eq_zero.mp h0)
  unfold encrypt
  simp only [hpe]
  rw [if_neg hlen]
  simp only [hsalt, deriveKey_load, hle, hks, haead, hm, hw]
  repeat' (first | split | dsimp only)
  all_goals
    simp only [leave_trace, emit_trace, deriveKey_trace]
    first
    | (refine ⟨[], ?_, ?_⟩
       · simp <;> done
       · simp)
    | (refine ⟨[Event.stdout [10]], ?_, ?_⟩
       · simp <;> done
       · simp)

theorem decrypt_trace_of_header (wd : World) (header : SealedHeader)
    (passphrase salt headerLine rest : Bytes) (sd : State) (ad : Nat)
    (hread : readBytes wd.stdin 10 = Except.ok (headerLine, rest))
    (hparse : wd.jsonUnmarshal headerLine = Except.ok header)
    (hv : header.Version ≠ "") (ha : header.Algorithm = "AES256-GCM-HKDF-1MB")
    (hk : header.KDF.Algorithm = "argon2id")
    (hf : header.Format = "" ∨ header.Format = "binary" ∨ header.Format = "base64")
    (hs : base64Decode header.KDF.Salt.toList = Except.ok salt)
    (hpd : getPassphrase wd "Enter passphrase: " State.init = (sd, Except.ok ad))
    (hld : sd.load ad = passphrase) (hne : passphrase ≠ []) :
    ∃ tail, (decrypt wd State.init).1.trace =
      sd.trace ++ [Event.argon2 ⟨passphrase, salt, header.KDF.Time, header.KDF.Memory,
          header.KDF.Threads, header.KDF.KeyLen⟩,
        Event.secret sd.heap.length (wd.argon2IDKey passphrase salt header.KDF.Time
          header.KDF.Memory header.KDF.Threads header.KDF.KeyLen)] ++ tail ∧
      ∀ e ∈ tail, ∃ k, e = Event.inputReader k := by
  have hlen : ¬ (sd.load ad).length = 0 := by
    rw [hld]
    intro h0
    exact hne (List.length_eq_zero.mp h0)
  have hfmt : ¬ ((if header.Format = "" then "base64" else header.Format) ≠ "binary" ∧
      (if header.Format = "" then "base64" else header.Format) ≠ "base64") := by
    rcases hf with h | h | h <;> simp [h]
  unfold decrypt
  simp only [hread, hparse]
  rw [if_neg hv, if_neg (by simp [ha]), if_neg (by simp [hk]), if_neg hfmt]
  simp only [hs, hpd]
  rw [if_neg hlen]
  simp only [hld]
  repeat' (first | split | dsimp only)
  all_goals
    simp only [leave_trace, emit_trace, deriveKey_trace]
    first
    | (refine ⟨[], ?_, ?_⟩
       · simp <;> done
       · simp)
    | (refine ⟨[Event.inputReader ReaderKind.base64Trimmed], ?_, ?_⟩
       · simp <;> done
       · simp)
    | (refine ⟨[Event.inputReader ReaderKind.raw], ?_, ?_⟩
       · simp <;> done
       · simp)

theorem getPassphraseWithConfirm_trace (w : World) (prompt confirmPrompt : String)
    (s : State) (e : Event)
    (h1 : ∀ p, e ≠ Event.askPassphrase p) (h2 : ∀ a c, e ≠ Event.secret a c) :
    e ∈ (getPassphraseWithConfirm w prompt confirmPrompt s).1.trace ↔ e ∈ s.trace := by
  unfold getPassphraseWithConfirm readPassword
  by_cases henv : w.getenvPassphrase ≠ []
  · rw [if_pos henv]
    simp [State.alloc, State.emit, h1, h2]
  · rw [if_neg henv]
    cases w.terminal 0 with
    | error err => simp [State.emit, h1]
    | ok b =>
      cases w.terminal 1 with
      | error err => simp [State.alloc, State.emit, zeroBytes, h1, h2]
      | ok c =>
        dsimp only
        split <;> simp [State.alloc, State.emit, zeroBytes, h1, h2]

/-- C1: when `encrypt` obtains the passphrase, draws the salt and writes its header
line `line`, then `decrypt`, reading a stream that starts with `line` and given the same
passphrase, passes every header check (version, algorithm, KDF algorithm, format, salt
decoding) and calls `deriveKey` exactly once, with the salt bytes, time, memory, threads
and key length of the one call `encrypt` made; both obtain the same key. The JSON library
is assumed to write the header on one line and to read that line back as the header. -/
theorem encrypt_header_accepted_by_decrypt (we wd : World) (opts : EncryptOptions)
    (passphrase salt line rest : Bytes) (se sd : State) (ae ad : Nat)
    (hpe : getPassphraseWithConfirm we "Enter passphrase: " "Confirm passphrase: " State.init =
      (se, Except.ok ae))
    (hle : se.load ae = passphrase) (hne : passphrase ≠ [])
    (hsalt : we.randRead SaltLen = Except.ok salt) (hbytes : ∀ b ∈ salt, b < 256)
    (hks : createKeysetFromKey we (we.argon2IDKey passphrase salt opts.Argon2Time
      opts.Argon2Memory Argon2Threads Argon2KeyLen) = none)
    (haead : we.streamingaeadNew = none)
    (hm : we.jsonMarshal (encryptHeader opts salt) = Except.ok line)
    (hw : we.stdoutWrite 0 = none)
    (hnl : 10 ∉ line)
    (hstdin : wd.stdin = line ++ [10] ++ rest)
    (hu : wd.jsonUnmarshal (line ++ [10]) = Except.ok (encryptHeader opts salt))
    (hpd : getPassphrase wd "Enter passphrase: " State.init = (sd, Except.ok ad))
    (hld : sd.load ad = passphrase)
    (hkdf : wd.argon2IDKey = we.argon2IDKey) :
    Event.stdout line ∈ (encrypt opts we State.init).1.trace ∧
    (∀ c, Event.argon2 c ∈ (encrypt opts we State.init).1.trace ↔
      c = ⟨passphrase, salt, opts.Argon2Time, opts.Argon2Memory, Argon2Threads, Argon2KeyLen⟩) ∧
    (∀ c, Event.argon2 c ∈ (decrypt wd State.init).1.trace ↔
      c = ⟨passphrase, salt, opts.Argon2Time, opts.Argon2Memory, Argon2Threads, Argon2KeyLen⟩) ∧
    Event.secret se.heap.length (we.argon2IDKey passphrase salt opts.Argon2Time
      opts.Argon2Memory Argon2Threads Argon2KeyLen) ∈ (encrypt opts we State.init).1.trace ∧
    Event.secret sd.heap.length (we.argon2IDKey passphrase salt opts.Argon2Time
      opts.Argon2Memory Argon2Threads Argon2KeyLen) ∈ (decrypt wd State.init).1.trace := by
  obtain ⟨te, hte, hte2⟩ := encrypt_trace_of_header_written we opts passphrase salt line se ae
    hpe hle hne hsalt hks haead hm hw
  have hread : readBytes wd.stdin 10 = Except.ok (line ++ [10], rest) := by
    rw [hstdin]
    exact readBytes_line line rest hnl
  have hfmt : (encryptHeader opts salt).Format = "" ∨ (encryptHeader opts salt).Format = "binary" ∨
      (encryptHeader opts salt).Format = "base64" := by
    cases hb : opts.UseBase64 <;> simp [encryptHeader, hb]
  have hver : (encryptHeader opts salt).Version ≠ "" := by
    show Version ≠ ""
    decide
  obtain ⟨td, htd, htd2⟩ := decrypt_trace_of_header wd (encryptHeader opts salt) passphrase salt
    (line ++ [10]) rest sd ad hread hu hver rfl rfl hfmt
    (base64Decode_base64Encode salt hbytes) hpd hld hne
  have hse : ∀ c, Event.argon2 c ∉ se.trace := by
    intro c hc
    have hs1 : se = (getPassphraseWithConfirm we "Enter passphrase: " "Confirm passphrase: "
        State.init).1 := by rw [hpe]
    rw [hs1, getPassphraseWithConfirm_trace we _ _ _ _ (by intro p; simp)
      (by intro a c; simp)] at hc
    simp [State.init] at hc
  have hsd : ∀ c, Event.argon2 c ∉ sd.trace := by
    intro c hc
    have hs1 : sd = (getPassphrase wd "Enter passphrase: " State.init).1 := by rw [hpd]
    rw [hs1, getPassphrase_trace wd _ _ _ (by intro p; simp) (by intro a c; simp)] at hc
    simp [State.init] at hc
  have hte3 : ∀ c, Event.argon2 c ∉ te := by
    intro c hc
    have := hte2 _ hc
    simp at this
  have htd3 : ∀ c, Event.argon2 c ∉ td := by
    intro c hc
    obtain ⟨k, hk⟩ := htd2 _ hc
    simp at hk
  rw [hte, htd, hkdf]
  refine ⟨by simp, ?_, ?_, by simp, ?_⟩
  rotate_left 2
  · refine List.mem_append_left _ (List.mem_append_right _ ?_)
    exact List.mem_cons_of_mem _ (List.mem_singleton_self _)
  · intro c
    simp only [List.mem_append, List.mem_cons, List.mem_singleton, List.not_mem_nil, or_false,
      reduceCtorEq, Event.argon2.injEq, hse c, hte3 c, false_or]
  · intro c
    simp only [List.mem_append, List.mem_cons, List.mem_singleton, List.not_mem_nil, or_false,
      reduceCtorEq, Event.argon2.injEq, hsd c, htd3 c, false_or]
    rfl

/-- Witness for C1: the example run with the default options; the stream read back
is the header line followed by three payload bytes. -/
theorem encrypt_header_accepted_by_decrypt_witness :
    Event.stdout (marshalHeader exampleHeader) ∈
      (encrypt defaultOptions
        (exampleWorld ["jfcrypt", "--encrypt"] [112, 119] exampleSalt exampleHeader [])
        State.init).1.trace ∧
    Event.secret 1 (toyKDF [112, 119] exampleSalt 3 1048576 4 32) ∈
      (decrypt (exampleWorld ["jfcrypt", "--decrypt"] [112, 119] exampleSalt exampleHeader
        [1, 2, 3]) State.init).1.trace :=
  have h := encrypt_header_accepted_by_decrypt
    (exampleWorld ["jfcrypt", "--encrypt"] [112, 119] exampleSalt exampleHeader [])
    (exampleWorld ["jfcrypt", "--decrypt"] [112, 119] exampleSalt exampleHeader [1, 2, 3])
    defaultOptions [112, 119] exampleSalt (marshalHeader exampleHeader) [1, 2, 3]
    ⟨[[112, 119]], [Event.askPassphrase "Enter passphrase: ", Event.secret 0 [112, 119]]⟩
    ⟨[[112, 119]], [Event.askPassphrase "Enter passphrase: ", Event.secret 0 [112, 119]]⟩
    0 0 (by decide) (by decide) (by decide) (by decide) (by decide) (by decide) (by decide)
    (by decide) (by decide) (by decide) (by decide) (by decide) (by decide) (by decide) rfl
  ⟨h.1, h.2.2.2.2⟩

/-! ### Cost parameters on the command-line path -/

theorem parseUintLoop_le (maxVal : Nat) (cs : List Char) (n v : Nat) (hn : n ≤ maxVal)
    (h : parseUintLoop maxVal cs n = Except.ok v) : v ≤ maxVal := by
  induction cs generalizing n with
  | nil =>
    simp only [parseUintLoop, Except.ok.injEq] at h
    omega
  | cons c cs ih =>
    unfold parseUintLoop at h
    split at h
    · split at h
      · exact Except.noConfusion h
      · dsimp only at h
        split at h
        · exact Except.noConfusion h
        · rename_i hok
          exact ih _ (by omega) h
    · exact Except.noConfusion h

theorem parseUint_le (s : List Char) (v : Nat) (h : parseUint s 32 = Except.ok v) :
    v ≤ 2 ^ 32 - 1 := by
  unfold parseUint at h
  split at h
  · exact Except.noConfusion h
  · exact parseUintLoop_le _ s 0 v (Nat.zero_le _) h

theorem parseMemory_ge (s : List Char) (v : Nat) (h : parseMemory s = Except.ok v) :
    1024 ≤ v := by
  unfold parseMemory at h
  dsimp only at h
  repeat' (split at h)
  all_goals
    first
    | exact Except.noConfusion h
    | (simp only [Except.ok.injEq] at h
       subst h
       omega)

theorem runOptions_cost (args : List String) (opts0 opts : EncryptOptions)
    (h0 : 1 ≤ opts0.Argon2Time ∧ 8 * Argon2Threads ≤ opts0.Argon2Memory)
    (h : runOptions args opts0 = Except.ok opts) :
    1 ≤ opts.Argon2Time ∧ 8 * Argon2Threads ≤ opts.Argon2Memory := by
  induction args generalizing opts0 with
  | nil =>
    simp only [runOptions, Except.ok.injEq] at h
    subst h
    exact h0
  | cons arg rest ih =>
    unfold runOptions at h
    split at h
    · exact ih _ (by exact h0) h
    · split at h
      · split at h
        · exact Except.noConfusion h
        · rename_i val hval
          have hge := parseMemory_ge _ _ hval
          refine ih _ ?_ h
          exact ⟨h0.1, by simp only [Argon2Threads]; omega⟩
      · split at h
        · split at h
          · exact Except.noConfusion h
          · rename_i val hval
            have hge := parseMemory_ge _ _ hval
            refine ih _ ?_ h
            exact ⟨h0.1, by simp only [Argon2Threads]; omega⟩
        · split at h
          · split at h
            · exact Except.noConfusion h
            · rename_i val hval
              have hle := parseUint_le _ _ hval
              split at h
              · exact Except.noConfusion h
              · refine ih _ ?_ h
                refine ⟨?_, h0.2⟩
                show 1 ≤ val % 2 ^ 32
                rw [Nat.mod_eq_of_lt (by norm_num at hle ⊢; omega)]
                omega
          · split at h
            · split at h
              · exact Except.noConfusion h
              · rename_i val hval
                have hle := parseUint_le _ _ hval
                split at h
                · exact Except.noConfusion h
                · refine ih _ ?_ h
                  refine ⟨?_, h0.2⟩
                  show 1 ≤ val % 2 ^ 32
                  rw [Nat.mod_eq_of_lt (by norm_num at hle ⊢; omega)]
                  omega
            · exact ih _ h0 h

theorem encrypt_argon2_events (opts : EncryptOptions) (w : World) (c : DeriveCall)
    (hmem : Event.argon2 c ∈ (encrypt opts w State.init).1.trace) :
    c.time = opts.Argon2Time ∧ c.memory = opts.Argon2Memory ∧ c.threads = Argon2Threads ∧
      c.keyLen = Argon2KeyLen := by
  have hinit : Event.argon2 c ∉
      (getPassphraseWithConfirm w "Enter passphrase: " "Confirm passphrase: "
        State.init).1.trace := by
    rw [getPassphraseWithConfirm_trace w _ _ _ _ (by intro p; simp) (by intro a c; simp)]
    simp [State.init]
  unfold encrypt at hmem
  revert hmem
  repeat' (first | split | dsimp only)
  all_goals
    intro hmem
    try simp only [leave_trace, emit_trace, deriveKey_trace, List.mem_append, List.mem_cons,
      List.mem_singleton, List.not_mem_nil, or_false, reduceCtorEq, false_or, or_false,
      Event.argon2.injEq] at hmem
    first
    | (exfalso
       rw [show getPassphraseWithConfirm w "Enter passphrase: " "Confirm passphrase: "
         State.init = _ from by assumption] at hinit
       exact hinit hmem)
    | (rcases hmem with hmem | hmem
       · exfalso
         rw [show getPassphraseWithConfirm w "Enter passphrase: " "Confirm passphrase: "
           State.init = _ from by assumption] at hinit
         exact hinit hmem
       · subst hmem
         exact ⟨rfl, rfl, rfl, rfl⟩)

/-- On the command-line path the cost parameters are checked: every `deriveKey` call
of an encryption started by `run` has time at least 1 and memory at least 8 KB per
thread. -/
theorem run_encrypt_cost_valid (w : World) (prog cmd : String) (rest : List String)
    (hargs : w.args = prog :: cmd :: rest) (hcmd : cmd = "--encrypt" ∨ cmd = "-e")
    (c : DeriveCall) (hmem : Event.argon2 c ∈ (run w State.init).1.trace) :
    1 ≤ c.time ∧ 8 * c.threads ≤ c.memory := by
  cases hopts : runOptions rest defaultOptions with
  | error err =>
    rw [run_of_option_error w State.init prog cmd rest err hargs hopts] at hmem
    simp [State.init] at hmem
  | ok opts =>
    rw [run_of_options w State.init prog cmd rest opts hargs hopts, if_pos hcmd] at hmem
    obtain ⟨h1, h2, h3, -⟩ := encrypt_argon2_events opts w c hmem
    have := runOptions_cost rest defaultOptions opts (by decide) hopts
    rw [h1, h2, h3]
    exact this

end Jfcrypt
